import Mathlib

/-!
# dochub: resolving a table-of-contents manifest (`index/entry.go`)

A shallow embedding of `index.Load` and of what it calls, followed by the
properties of the resolver.

Modelling decisions, each tied to the source:

* `*string` and `*[]Entry` are pointers that may be `nil`: they become `Option`.
* `Load` returns `(*Entry, error)` but can also stop with a runtime panic: the
  expression `*entry.Entries` at line 78 dereferences a pointer that is `nil`
  when the document has no `entries` field.  A panic is not an `error` value: it
  unwinds through every caller.  `Outcome` therefore has three cases.
* The Go standard library (`http.Get`, `io.Copy`, `ioutil.ReadFile`,
  `json.Unmarshal`) is outside the repository: it is the parameter `Env`.
* Every call that reaches the network or the file system is recorded in a list
  of `Event`s, so that "nothing else is fetched" is a statement about that list.
* The recursion counter lives in the `context.Context` under the private key
  `count`; only `Load` can write it, always an `int`.  The context is modelled by
  the value stored under that key, `none` when the key is missing.
* The environment is a function of the reference: within one resolution the
  same reference reads the same bytes and the same bytes parse the same way.
* `log.Printf` / `log.Println` only write to the log and are left out.
* `Load` recurses with the counter incremented and stops above 10.  The model
  recurses structurally on a fuel argument and `none` means that the fuel ran
  out; `Load` starts with 12 units, which is shown to be always enough.
-/

namespace Dochub

/-- Raw content of a manifest, `[]byte` in the source. -/
abbrev Bytes := List Nat

/-- The `error` values that `Load` can return. -/
inductive Error where
  /-- The error `errors.New("recursion too deep")` of line 44. -/
  | recursionTooDeep
  /-- The error `fmt.Errorf("invalid manifest reference: %q", manifest)` of line 53. -/
  | invalidManifest (manifest : String)
  /-- The error `fmt.Errorf("entry %q must not have a manifest, yet has %q", title, href)` of line 74. -/
  | mustNotHaveManifest (title href : String)
  /-- The error `fmt.Errorf("mountpoint must not have a link")` of line 99. -/
  | mountpointLink
  /-- The error `fmt.Errorf("mountpoint must not have subentries")` of line 102. -/
  | mountpointSubentries
  /-- An error made by the standard library (transport, storage, JSON syntax). -/
  | library (msg : String)
  deriving DecidableEq, Repr

/-- The errors raised by the shape checks of lines 73, 98 and 101. -/
def Error.isValidation : Error → Bool
  | .mustNotHaveManifest _ _ => true
  | .mountpointLink => true
  | .mountpointSubentries => true
  | _ => false

/-- The `Entry` struct of lines 16-23. -/
inductive Entry where
  | mk (Title : Option String) (Link : Option String)
      (Entries : Option (List Entry)) (HRef : Option String)
  deriving Repr

/-- Field `Title`. -/
def Entry.Title : Entry → Option String
  | .mk t _ _ _ => t

/-- Field `Link`. -/
def Entry.Link : Entry → Option String
  | .mk _ l _ _ => l

/-- Field `Entries`. -/
def Entry.Entries : Entry → Option (List Entry)
  | .mk _ _ es _ => es

/-- Field `HRef`. -/
def Entry.HRef : Entry → Option String
  | .mk _ _ _ h => h

/-- The assignment `entry.Entries = &entries` of line 92. -/
def Entry.setEntries : Entry → List Entry → Entry
  | .mk t l _ h, es => .mk t l (some es) h

/-- What `http.Get` hands back when the request went through. -/
structure Response where
  /-- What reading `response.Body` to its end gives (`io.Copy` into the buffer). -/
  Body : Except Error Bytes

/-- The standard-library calls `Load` depends on. -/
structure Env where
  /-- Models `http.Get`. -/
  httpGet : String → Except Error Response
  /-- Models `ioutil.ReadFile`. -/
  readFile : String → Except Error Bytes
  /-- Models `json.Unmarshal(data, entry)` on a fresh `&Entry{}`. -/
  unmarshal : Bytes → Except Error Entry

/-- A call that leaves the process. -/
inductive Event where
  /-- A call of `DownloadFile(url)`. -/
  | download (url : String)
  /-- A call of `ioutil.ReadFile(path)`. -/
  | readFile (path : String)
  deriving DecidableEq, Repr

/-- How a Go call ends. -/
inductive Outcome (α : Type) where
  /-- It returned `(a, nil)`. -/
  | ret (a : α)
  /-- It returned `(nil, err)`. -/
  | fail (err : Error)
  /-- It panicked (nil pointer dereference). -/
  | panic
  deriving Repr

/-- The function `DownloadFile`, lines 118-130. -/
def DownloadFile (env : Env) (url : String) : Except Error Bytes :=
  match env.httpGet url with
  | .error err => .error err
  | .ok response =>
    match response.Body with
    | .error err => .error err
    | .ok buffer => .ok buffer

/-- The call `strings.ToLower`, on the characters of the string (see the note on `isRemote`). -/
def toLower (s : String) : List Char :=
  s.toList.map Char.toLower

/-- The test of line 54:
`HasPrefix(ToLower(manifest), "https://") || HasPrefix(ToLower(manifest), "http://")`.
Go lowers every Unicode letter and the model only the ASCII ones; the test is
the same, since no character outside ASCII is lowered to one of `h`, `t`, `p`, `s`. -/
def isRemote (manifest : String) : Bool :=
  "https://".toList.isPrefixOf (toLower manifest) || "http://".toList.isPrefixOf (toLower manifest)

/-- Lines 54-58: the call that reads the data of a non-empty reference, and what it gives. -/
def readData (env : Env) (manifest : String) : Event × Except Error Bytes :=
  if isRemote manifest then (Event.download manifest, DownloadFile env manifest)
  else (Event.readFile manifest, env.readFile manifest)

/-- Lines 41-45: the counter the rest of the call works with, or the depth error. -/
def checkCount (ctx : Option Nat) : Except Error Nat :=
  match ctx with
  | none => .ok 0
  | some c => if c > 10 then .error .recursionTooDeep else .ok c

/-- A run: the calls made, in order, and how it ended; `none` when the fuel ran out. -/
abbrev Run (α : Type) := Option (List Event × Outcome α)

/-- The loop of lines 78-91 over the subentries still to visit; `entries` is the
slice built so far and `load` the recursive call of line 82. -/
def rangeEntries (load : String → Run Entry) : List Entry → List Entry → Run (List Entry)
  | [], entries => some ([], .ret entries)
  | subentry :: rest, entries =>
    if subentry.HRef ≠ none ∧ subentry.HRef ≠ some "" then
      match load (subentry.HRef.getD "") with
      | none => none
      | some (evs, .panic) => some (evs, .panic)
      | some (evs, .fail _) =>
        (rangeEntries load rest entries).map fun r => (evs ++ r.1, r.2)
      | some (evs, .ret entry) =>
        (rangeEntries load rest (entries ++ [entry])).map fun r => (evs ++ r.1, r.2)
    else
      rangeEntries load rest (entries ++ [subentry])

/-- The body of `Load`, lines 39-112; `Load` stands for the function itself at
its two recursive calls (lines 82 and 106). -/
def LoadBody (env : Env) (Load : Option Nat → String → Run Entry)
    (ctx : Option Nat) (manifest : String) : Run Entry :=
  match checkCount ctx with
  | .error err => some ([], .fail err)
  | .ok c =>
    if manifest = "" then some ([], .fail (.invalidManifest manifest))
    else
      match (readData env manifest).2 with
      | .error err => some ([(readData env manifest).1], .fail err)
      | .ok data =>
        match env.unmarshal data with
        | .error err => some ([(readData env manifest).1], .fail err)
        | .ok entry =>
          if entry.Title ≠ none ∧ entry.Title ≠ some "" then
            if entry.HRef ≠ none then
              some ([(readData env manifest).1],
                .fail (.mustNotHaveManifest (entry.Title.getD "") (entry.HRef.getD "")))
            else
              match entry.Entries with
              | none => some ([(readData env manifest).1], .panic)
              | some subentries =>
                match rangeEntries (Load (some (c + 1))) subentries [] with
                | none => none
                | some (evs, .ret entries) =>
                  some ((readData env manifest).1 :: evs, .ret (entry.setEntries entries))
                | some (evs, .fail err) => some ((readData env manifest).1 :: evs, .fail err)
                | some (evs, .panic) => some ((readData env manifest).1 :: evs, .panic)
          else if entry.HRef ≠ none ∧ entry.HRef ≠ some "" then
            if entry.Link ≠ none ∧ entry.Link ≠ some "" then
              some ([(readData env manifest).1], .fail .mountpointLink)
            else if entry.Entries.isSome ∧ (entry.Entries.getD []).length > 0 then
              some ([(readData env manifest).1], .fail .mountpointSubentries)
            else
              match Load (some (c + 1)) (entry.HRef.getD "") with
              | none => none
              | some (evs, r) => some ((readData env manifest).1 :: evs, r)
          else
            some ([(readData env manifest).1], .ret entry)

/-- The function `Load` with a bound on the nesting of calls: `none` when `fuel` calls are
not enough. -/
def LoadFuel (env : Env) : Nat → Option Nat → String → Run Entry
  | 0 => fun _ _ => none
  | fuel + 1 => LoadBody env (LoadFuel env fuel)

/-- The function `Load(ctx, manifest)` of lines 39-112: `ctx` is the value under the key
`count`, `none` when the key is absent.  Twelve nested calls are always enough. -/
def Load (env : Env) (ctx : Option Nat) (manifest : String) : Run Entry :=
  LoadFuel env 12 ctx manifest

mutual
/-- No node of the tree carries a non-empty `href`. -/
def Entry.resolved : Entry → Bool
  | .mk _ _ es h => (h == none || h == some "") && resolvedOpt es
/-- No node below an optional list of entries carries a non-empty `href`. -/
def resolvedOpt : Option (List Entry) → Bool
  | none => true
  | some es => resolvedList es
/-- No node of a list of trees carries a non-empty `href`. -/
def resolvedList : List Entry → Bool
  | [] => true
  | e :: es => e.resolved && resolvedList es
end

/-- Lines 52-66 alone: the entry a reference is read and parsed to, `none` when
the reference is empty or when reading or parsing fails. -/
def parsed (env : Env) (manifest : String) : Option Entry :=
  if manifest = "" then none
  else
    match (readData env manifest).2 with
    | .error _ => none
    | .ok data =>
      match env.unmarshal data with
      | .error _ => none
      | .ok entry => some entry

/-- The test of line 68: the title is set and not empty. -/
abbrev Entry.hasTitle (e : Entry) : Prop := e.Title ≠ none ∧ e.Title ≠ some ""

/-- The test of lines 79 and 93: the href is set and not empty. -/
abbrev Entry.hasHRef (e : Entry) : Prop := e.HRef ≠ none ∧ e.HRef ≠ some ""

/-- The test of line 98: the link is set and not empty. -/
abbrev Entry.hasLink (e : Entry) : Prop := e.Link ≠ none ∧ e.Link ≠ some ""

/-- The test of line 101: the subentries are set and not empty. -/
abbrev Entry.hasEntries (e : Entry) : Prop := e.Entries.isSome ∧ (e.Entries.getD []).length > 0

/-- A valid mountpoint to `href`: no usable title, a non-empty href, no usable
link and no children. -/
abbrev Entry.mountsTo (e : Entry) (href : String) : Prop :=
  ¬ e.hasTitle ∧ e.HRef = some href ∧ href ≠ "" ∧ ¬ e.hasLink ∧ ¬ e.hasEntries

/-- The walk over the children described in §4.2 step 6, written from the
spec's words: a child with a non-empty href is replaced by what `load` returns
for it when that succeeds and is left out otherwise; any other child is kept. -/
def resolveChildren (load : String → Run Entry) (cs : List Entry) : List Entry :=
  cs.filterMap fun child =>
    if child.HRef ≠ none ∧ child.HRef ≠ some "" then
      match load (child.HRef.getD "") with
      | some (_, .ret e) => some e
      | _ => none
    else some child

/-- The calls made while walking the children, in order. -/
def childEvents (load : String → Run Entry) (cs : List Entry) : List Event :=
  (cs.map fun child =>
    if child.HRef ≠ none ∧ child.HRef ≠ some "" then
      match load (child.HRef.getD "") with
      | some (evs, _) => evs
      | none => []
    else []).flatten

/-- The bytes of an ASCII text. -/
def bytesOf (s : String) : Bytes := s.toList.map Char.toNat

/-- A world of local files for the examples: each file is a path, its JSON text
and the entry `json.Unmarshal` builds from that text; there is no network. -/
def fileEnv (files : List (String × String × Entry)) : Env where
  httpGet := fun _ => .error (.library "no network")
  readFile := fun path =>
    match files.find? (fun f => f.1 == path) with
    | some f => .ok (bytesOf f.2.1)
    | none => .error (.library "no such file")
  unmarshal := fun data =>
    match files.find? (fun f => bytesOf f.2.1 == data) with
    | some f => .ok f.2.2
    | none => .error (.library "syntax error")

/-- A direct entry without link and without an `entries` field. -/
def leaf (title : String) : Entry := .mk (some title) none none none

/-- A direct entry without link. -/
def node (title : String) (children : List Entry) : Entry := .mk (some title) none (some children) none

/-- A mountpoint. -/
def mount (href : String) : Entry := .mk none none none (some href)

/-- The end-to-end example of §8. -/
def docsEnv : Env := fileEnv
  [("root.json", "\x7b\"title\":\"Docs\",\"entries\":[\x7b\"title\":\"Intro\"\x7d,\x7b\"href\":\"sub.json\"\x7d]\x7d",
      node "Docs" [leaf "Intro", mount "sub.json"]),
   ("sub.json", "\x7b\"title\":\"Sub\",\"entries\":[]\x7d", node "Sub" [])]

/-- Three mountpoint children; the file of the second one does not exist. -/
def threeEnv : Env := fileEnv
  [("root.json", "\x7b\"title\":\"Docs\",\"entries\":[\x7b\"href\":\"a.json\"\x7d,\x7b\"href\":\"b.json\"\x7d,\x7b\"href\":\"c.json\"\x7d]\x7d",
      node "Docs" [mount "a.json", mount "b.json", mount "c.json"]),
   ("a.json", "\x7b\"title\":\"A\",\"entries\":[]\x7d", node "A" []),
   ("c.json", "\x7b\"title\":\"C\",\"entries\":[]\x7d", node "C" [])]

/-- A mountpoint child whose document is a direct entry without an `entries` field. -/
def nestedLeafEnv : Env := fileEnv
  [("root.json", "\x7b\"title\":\"Docs\",\"entries\":[\x7b\"href\":\"sub.json\"\x7d]\x7d",
      node "Docs" [mount "sub.json"]),
   ("sub.json", "\x7b\"title\":\"Sub\"\x7d", leaf "Sub")]

/-- What `Load` is shown to guarantee about the entry it returns: the root
carries no non-empty href and, when it has a non-empty title, it has a children
list none of whose members carries a non-empty href. -/
def Entry.shallowResolved (e : Entry) : Prop :=
  ¬ e.hasHRef ∧ (e.hasTitle → ∃ cs, e.Entries = some cs ∧ ∀ c ∈ cs, ¬ c.hasHRef)

/-- The part of a parsed document that `Load` hands back without looking into
it holds no non-empty href at any level: in a titled document, every child
without a non-empty href (lines 88-89 copy it); in a document without a usable
title, the whole children list (line 111 returns the node as it is, and a valid
mountpoint has no children). -/
def Entry.inlineResolved (e : Entry) : Bool :=
  if e.hasTitle then (e.Entries.getD []).all fun c => decide c.hasHRef || c.resolved
  else resolvedOpt e.Entries

/-- Every document read in a run, as far as it parses, satisfies `inlineResolved`. -/
def docsInlineResolved (env : Env) (evs : List Event) : Prop :=
  ∀ m entry, (readData env m).1 ∈ evs → parsed env m = some entry → entry.inlineResolved = true

/-- Mountpoints nested three levels deep, each inside the children list of the
document before. -/
def nestedEnv : Env := fileEnv
  [("root.json", "\x7b\"title\":\"Docs\",\"entries\":[\x7b\"href\":\"a.json\"\x7d]\x7d",
      node "Docs" [mount "a.json"]),
   ("a.json", "\x7b\"title\":\"A\",\"entries\":[\x7b\"title\":\"Intro\",\"entries\":[]\x7d,\x7b\"href\":\"b.json\"\x7d]\x7d",
      node "A" [node "Intro" [], mount "b.json"]),
   ("b.json", "\x7b\"title\":\"B\",\"entries\":[\x7b\"href\":\"c.json\"\x7d]\x7d",
      node "B" [mount "c.json"]),
   ("c.json", "\x7b\"title\":\"C\",\"entries\":[]\x7d", node "C" [])]

/-- A direct entry whose inline child has a mountpoint among its own children. -/
def deepEnv : Env := fileEnv
  [("root.json",
      "\x7b\"title\":\"Docs\",\"entries\":[\x7b\"title\":\"Part\",\"entries\":[\x7b\"href\":\"sub.json\"\x7d]\x7d]\x7d",
      node "Docs" [node "Part" [mount "sub.json"]]),
   ("sub.json", "\x7b\"title\":\"Sub\",\"entries\":[]\x7d", node "Sub" [])]

/-- The same titled document with `"href":""` and without the field. -/
def emptyHRefEnv : Env := fileEnv
  [("with.json", "\x7b\"title\":\"Docs\",\"entries\":[],\"href\":\"\"\x7d",
      .mk (some "Docs") none (some []) (some "")),
   ("without.json", "\x7b\"title\":\"Docs\",\"entries\":[]\x7d", node "Docs" [])]

/-- Documents breaking each of the three shape rules, and a file that is not JSON. -/
def invalidEnv : Env := fileEnv
  [("both.json", "\x7b\"title\":\"Docs\",\"href\":\"sub.json\"\x7d",
      .mk (some "Docs") none none (some "sub.json")),
   ("link.json", "\x7b\"href\":\"sub.json\",\"link\":\"x.html\"\x7d",
      .mk none (some "x.html") none (some "sub.json")),
   ("kids.json", "\x7b\"href\":\"sub.json\",\"entries\":[\x7b\"title\":\"Intro\"\x7d]\x7d",
      .mk none none (some [leaf "Intro"]) (some "sub.json")),
   ("sub.json", "\x7b\"title\":\"Sub\",\"entries\":[]\x7d", node "Sub" [])]

/-- The reads of the documents `r j`, `r (j + 1)`, ... (`n` of them), in order. -/
def chainEvents (env : Env) (r : Nat → String) (j n : Nat) : List Event :=
  (List.range' j n).map fun i => (readData env (r i)).1

/-- The text of a mountpoint document. -/
def mountText (href : String) : String := "\x7b\"href\":\"" ++ href ++ "\"\x7d"

/-- Two chains of mountpoints, `a0.json -> a1.json -> a2.json` ending in a
direct entry, and `b0.json -> b1.json -> ... -> b11.json` whose last document is
a direct entry too; and `loop.json`, a mountpoint to itself. -/
def chainEnv : Env := fileEnv
  [("a0.json", mountText "a1.json", mount "a1.json"),
   ("a1.json", mountText "a2.json", mount "a2.json"),
   ("a2.json", "\x7b\"title\":\"End\",\"entries\":[\x7b\"title\":\"Intro\"\x7d]\x7d", node "End" [leaf "Intro"]),
   ("b0.json", mountText "b1.json", mount "b1.json"),
   ("b1.json", mountText "b2.json", mount "b2.json"),
   ("b2.json", mountText "b3.json", mount "b3.json"),
   ("b3.json", mountText "b4.json", mount "b4.json"),
   ("b4.json", mountText "b5.json", mount "b5.json"),
   ("b5.json", mountText "b6.json", mount "b6.json"),
   ("b6.json", mountText "b7.json", mount "b7.json"),
   ("b7.json", mountText "b8.json", mount "b8.json"),
   ("b8.json", mountText "b9.json", mount "b9.json"),
   ("b9.json", mountText "b10.json", mount "b10.json"),
   ("b10.json", mountText "b11.json", mount "b11.json"),
   ("b11.json", "\x7b\"title\":\"Far\",\"entries\":[]\x7d", node "Far" []),
   ("loop.json", mountText "loop.json", mount "loop.json")]

/-- The references of the chain `a0.json -> a1.json -> a2.json`. -/
def chainA (i : Nat) : String := ["a0.json", "a1.json", "a2.json"].getD i ""

/-- The references `b0.json, b1.json, ..., b11.json`, from the one numbered `k` on. -/
def chainB (k i : Nat) : String :=
  ["b0.json", "b1.json", "b2.json", "b3.json", "b4.json", "b5.json", "b6.json", "b7.json",
    "b8.json", "b9.json", "b10.json", "b11.json"].getD (k + i) ""

/-- A chain of one hop whose last document is a direct entry without an
`entries` field. -/
def chainLeafEnv : Env := fileEnv
  [("m.json", mountText "leaf.json", mount "leaf.json"),
   ("leaf.json", "\x7b\"title\":\"Intro\"\x7d", leaf "Intro")]

/-- The root is a mountpoint to a file that does not exist. -/
def brokenMountEnv : Env := fileEnv
  [("root.json", "\x7b\"href\":\"missing.json\"\x7d", mount "missing.json")]

/-- A direct entry without an `entries` field. -/
def leafEnv : Env := fileEnv
  [("leaf.json", "\x7b\"title\":\"Intro\",\"link\":\"intro.html\"\x7d",
      .mk (some "Intro") (some "intro.html") none none)]

/-- A direct entry with a link, an empty child, an inline subtree and no
mountpoint; and a node with neither title nor href that still lists a mountpoint. -/
def plainEnv : Env := fileEnv
  [("plain.json",
      "\x7b\"title\":\"Docs\",\"link\":\"docs.html\",\"entries\":[\x7b\"title\":\"Intro\"\x7d,\x7b\"title\":\"Part\",\"entries\":[\x7b\"title\":\"One\"\x7d]\x7d,\x7b\"href\":\"\"\x7d]\x7d",
      .mk (some "Docs") (some "docs.html")
        (some [leaf "Intro", node "Part" [leaf "One"], mount ""]) none),
   ("empty.json", "\x7b\"link\":\"x.html\",\"entries\":[\x7b\"href\":\"sub.json\"\x7d]\x7d",
      .mk none (some "x.html") (some [mount "sub.json"]) none),
   ("sub.json", "\x7b\"title\":\"Sub\",\"entries\":[]\x7d", node "Sub" [])]

/-- The chain of `n + 1` nested entries titled "A", each the only child of the
one above it, the innermost with an empty children list. -/
def nestA : Nat → Entry
  | 0 => node "A" []
  | n + 1 => node "A" [nestA n]

/-- A reference cycle through a children list: the document "A" lists a
mountpoint to "A". -/
def cycleEnv : Env := fileEnv
  [("A", "\x7b\"title\":\"A\",\"entries\":[\x7b\"href\":\"A\"\x7d]\x7d", node "A" [mount "A"])]

/-- Two children the loop of lines 78-91 cannot tell apart: both carry the same
non-empty href, whatever else they carry, or the first carries none and the
second is the same child. -/
def sameChild (a b : Entry) : Prop :=
  (a.hasHRef ∧ b.HRef = a.HRef) ∨ (¬ a.hasHRef ∧ b = a)

/-- Two roots with one child each, a mountpoint to `sub.json`: bare in one, with
an inline title, link and children in the other. -/
def inlineEnv : Env := fileEnv
  [("rich.json",
      "\x7b\"title\":\"Docs\",\"entries\":[\x7b\"title\":\"X\",\"link\":\"x.html\",\"entries\":[\x7b\"title\":\"Y\"\x7d],\"href\":\"sub.json\"\x7d]\x7d",
      node "Docs" [.mk (some "X") (some "x.html") (some [leaf "Y"]) (some "sub.json")]),
   ("bare.json", "\x7b\"title\":\"Docs\",\"entries\":[\x7b\"href\":\"sub.json\"\x7d]\x7d",
      node "Docs" [mount "sub.json"]),
   ("sub.json", "\x7b\"title\":\"Sub\",\"entries\":[]\x7d", node "Sub" [])]

/-! ## The recursion: fuel is never exhausted -/

theorem checkCount_none : checkCount none = .ok 0 := rfl

theorem checkCount_le {c : Nat} (h : c ≤ 10) : checkCount (some c) = .ok c := by
  have h' : ¬ c > 10 := by omega
  simp [checkCount, h']

theorem checkCount_gt {c : Nat} (h : 10 < c) : checkCount (some c) = .error .recursionTooDeep := by
  simp [checkCount, h]

theorem LoadFuel_succ (env : Env) (fuel : Nat) :
    LoadFuel env (fuel + 1) = LoadBody env (LoadFuel env fuel) := rfl

/-- The body only calls `Load` with the counter it works with, plus one. -/
theorem LoadBody_congr (env : Env) (L₁ L₂ : Option Nat → String → Run Entry)
    (ctx : Option Nat) (manifest : String)
    (h : ∀ c, checkCount ctx = .ok c → L₁ (some (c + 1)) = L₂ (some (c + 1))) :
    LoadBody env L₁ ctx manifest = LoadBody env L₂ ctx manifest := by
  unfold LoadBody
  cases hc : checkCount ctx with
  | error err => rfl
  | ok c => simp only [h c hc]

theorem LoadBody_none (env : Env) (L : Option Nat → String → Run Entry) (manifest : String) :
    LoadBody env L none manifest = LoadBody env L (some 0) manifest := by
  unfold LoadBody
  rw [checkCount_none, checkCount_le (Nat.zero_le 10)]

theorem rangeEntries_ne_none (load : String → Run Entry) (h : ∀ r, load r ≠ none) :
    ∀ subentries entries, rangeEntries load subentries entries ≠ none := by
  intro subentries
  induction subentries with
  | nil => intro entries; simp [rangeEntries]
  | cons subentry rest ih =>
    intro entries
    unfold rangeEntries
    split
    · split
      · rename_i heq; exact absurd heq (h _)
      · simp
      · simp [ih]
      · simp [ih]
    · exact ih _

theorem LoadBody_ne_none (env : Env) (L : Option Nat → String → Run Entry)
    (ctx : Option Nat) (manifest : String)
    (h : ∀ c r, checkCount ctx = .ok c → L (some (c + 1)) r ≠ none) :
    LoadBody env L ctx manifest ≠ none := by
  unfold LoadBody
  cases hc : checkCount ctx with
  | error err => simp
  | ok c =>
    have hr := rangeEntries_ne_none (L (some (c + 1))) (fun r => h c r hc)
    simp only
    repeat' split
    all_goals first
      | (rename_i heq; exact absurd heq (hr _ _))
      | (rename_i heq; exact absurd heq (h c _ hc))
      | simp

/-- Fuel left over changes nothing: at counter `c`, `12 - c` calls are enough. -/
theorem LoadFuel_stable (env : Env) :
    ∀ fuel c, 1 ≤ fuel → 12 ≤ fuel + c →
      LoadFuel env fuel (some c) = LoadFuel env (fuel + 1) (some c) := by
  intro fuel
  induction fuel with
  | zero => intro c h; omega
  | succ k ih =>
    intro c _ hk
    funext manifest
    rw [LoadFuel_succ, LoadFuel_succ]
    apply LoadBody_congr
    intro c' hc'
    by_cases hc : c ≤ 10
    · rw [checkCount_le hc] at hc'
      cases hc'
      exact ih (c + 1) (by omega) (by omega)
    · rw [checkCount_gt (by omega)] at hc'
      cases hc'

theorem LoadFuel_ne_none (env : Env) :
    ∀ fuel c, 1 ≤ fuel → 12 ≤ fuel + c → ∀ manifest, LoadFuel env fuel (some c) manifest ≠ none := by
  intro fuel
  induction fuel with
  | zero => intro c h; omega
  | succ k ih =>
    intro c _ hk manifest
    rw [LoadFuel_succ]
    apply LoadBody_ne_none
    intro c' r hc'
    by_cases hc : c ≤ 10
    · rw [checkCount_le hc] at hc'
      cases hc'
      exact ih (c + 1) (by omega) (by omega) r
    · rw [checkCount_gt (by omega)] at hc'
      cases hc'

/-- The function `Load` satisfies the recursive definition of the source: it is its own body. -/
theorem Load_unfold (env : Env) (ctx : Option Nat) (manifest : String) :
    Load env ctx manifest = LoadBody env (Load env) ctx manifest := by
  show LoadBody env (LoadFuel env 11) ctx manifest = LoadBody env (LoadFuel env 12) ctx manifest
  apply LoadBody_congr
  intro c _
  exact LoadFuel_stable env 11 (c + 1) (by omega) (by omega)

/-- Every call of `Load` ends: with a result, an error or a panic. -/
theorem Load_ne_none (env : Env) (ctx : Option Nat) (manifest : String) :
    Load env ctx manifest ≠ none := by
  rw [Load_unfold]
  apply LoadBody_ne_none
  intro c r _
  exact LoadFuel_ne_none env 12 (c + 1) (by omega) (by omega) r

/-- Starting without a counter is starting with the counter at 0. -/
theorem Load_none (env : Env) (manifest : String) :
    Load env none manifest = Load env (some 0) manifest := by
  rw [Load_unfold, Load_unfold, LoadBody_none]

/-! ## The branches of the body -/

/-- Lines 68-92 when the shape is direct and `entries` is present. -/
theorem LoadBody_direct (env : Env) (L : Option Nat → String → Run Entry)
    {ctx : Option Nat} {c : Nat} {manifest : String} {data : Bytes} {entry : Entry}
    {t : String} {cs : List Entry}
    (hc : checkCount ctx = .ok c) (hm : manifest ≠ "")
    (hdata : (readData env manifest).2 = .ok data) (hparse : env.unmarshal data = .ok entry)
    (ht : entry.Title = some t) (htne : t ≠ "") (hh : entry.HRef = none)
    (hcs : entry.Entries = some cs) :
    LoadBody env L ctx manifest =
      match rangeEntries (L (some (c + 1))) cs [] with
      | none => none
      | some (evs, .ret entries) =>
        some ((readData env manifest).1 :: evs, .ret (entry.setEntries entries))
      | some (evs, .fail err) => some ((readData env manifest).1 :: evs, .fail err)
      | some (evs, .panic) => some ((readData env manifest).1 :: evs, .panic) := by
  unfold LoadBody
  simp [hc, hm, hdata, hparse, ht, htne, hh, hcs]

/-- Line 78 when the shape is direct and `entries` is nil. -/
theorem LoadBody_direct_nil (env : Env) (L : Option Nat → String → Run Entry)
    {ctx : Option Nat} {c : Nat} {manifest : String} {data : Bytes} {entry : Entry}
    {t : String}
    (hc : checkCount ctx = .ok c) (hm : manifest ≠ "")
    (hdata : (readData env manifest).2 = .ok data) (hparse : env.unmarshal data = .ok entry)
    (ht : entry.Title = some t) (htne : t ≠ "") (hh : entry.HRef = none)
    (hcs : entry.Entries = none) :
    LoadBody env L ctx manifest = some ([(readData env manifest).1], .panic) := by
  unfold LoadBody
  simp [hc, hm, hdata, hparse, ht, htne, hh, hcs]

/-- Lines 93-109 when the shape is a valid mountpoint. -/
theorem LoadBody_mount (env : Env) (L : Option Nat → String → Run Entry)
    {ctx : Option Nat} {c : Nat} {manifest : String} {data : Bytes} {entry : Entry}
    {h : String}
    (hc : checkCount ctx = .ok c) (hm : manifest ≠ "")
    (hdata : (readData env manifest).2 = .ok data) (hparse : env.unmarshal data = .ok entry)
    (ht : entry.Title = none ∨ entry.Title = some "") (hh : entry.HRef = some h) (hhne : h ≠ "")
    (hl : entry.Link = none ∨ entry.Link = some "")
    (hcs : entry.Entries = none ∨ entry.Entries = some []) :
    LoadBody env L ctx manifest =
      match L (some (c + 1)) h with
      | none => none
      | some (evs, r) => some ((readData env manifest).1 :: evs, r) := by
  unfold LoadBody
  rcases ht with ht | ht <;> rcases hl with hl | hl <;> rcases hcs with hcs | hcs <;>
    simp [hc, hm, hdata, hparse, ht, hh, hhne, hl, hcs]

/-- The loop of lines 78-91 does what the walk of the spec says, as long as no
nested call panics. -/
theorem rangeEntries_eq (load : String → Run Entry) (hsome : ∀ r, load r ≠ none) :
    ∀ (cs entries : List Entry),
      (∀ child ∈ cs, child.HRef ≠ none ∧ child.HRef ≠ some "" →
        ∀ evs, load (child.HRef.getD "") ≠ some (evs, .panic)) →
      rangeEntries load cs entries =
        some (childEvents load cs, .ret (entries ++ resolveChildren load cs)) := by
  intro cs
  induction cs with
  | nil => intro entries _; simp [rangeEntries, childEvents, resolveChildren]
  | cons child rest ih =>
    intro entries hnp
    have hrest : ∀ c ∈ rest, c.HRef ≠ none ∧ c.HRef ≠ some "" →
        ∀ evs, load (c.HRef.getD "") ≠ some (evs, .panic) :=
      fun c hc => hnp c (List.mem_cons_of_mem _ hc)
    unfold rangeEntries
    by_cases hm : child.HRef ≠ none ∧ child.HRef ≠ some ""
    · have hp := hnp child (List.mem_cons_self _ _) hm
      rw [if_pos hm]
      cases hl : load (child.HRef.getD "") with
      | none => exact absurd hl (hsome _)
      | some run =>
        obtain ⟨evs, r⟩ := run
        cases r with
        | panic => exact absurd hl (hp evs)
        | fail err =>
          simp only [ih entries hrest, Option.map_some']
          simp [childEvents, resolveChildren, List.filterMap_cons, hm, hl]
        | ret e =>
          simp only [ih (entries ++ [e]) hrest, Option.map_some']
          simp [childEvents, resolveChildren, List.filterMap_cons, hm, hl]
    · rw [if_neg hm, ih (entries ++ [child]) hrest]
      simp [childEvents, resolveChildren, List.filterMap_cons, hm]

/-- The end-to-end example of §8 resolves as the spec says. -/
theorem Load_docs_example :
    Load docsEnv none "root.json" =
      some ([.readFile "root.json", .readFile "sub.json"],
        .ret (node "Docs" [leaf "Intro", node "Sub" []])) := by
  rfl

/-- Sibling resilience: the second of three mountpoint children cannot be read,
the first and the third are kept, in order, and no error comes out. -/
theorem Load_three_children :
    Load threeEnv none "root.json" =
      some ([.readFile "root.json", .readFile "a.json", .readFile "b.json", .readFile "c.json"],
        .ret (node "Docs" [node "A" [], node "C" []])) := by
  rfl

/-- Claim C1 (code evaluated at the failing input): the root is a direct entry
with a children list whose only child is a mountpoint to a document holding a
title and no `entries` field.  The nested call dereferences the nil `Entries`
pointer at line 78 and panics; the panic is not an error value, so line 83 does
not drop the child and the whole `Load` panics instead of succeeding. -/
theorem Load_nested_leaf_panics :
    Load nestedLeafEnv none "root.json" =
      some ([.readFile "root.json", .readFile "sub.json"], .panic) := by
  rfl

/-! ## Reading and parsing -/

theorem parsed_eq_some {env : Env} {manifest : String} {entry : Entry}
    (h : parsed env manifest = some entry) :
    manifest ≠ "" ∧ ∃ data, (readData env manifest).2 = .ok data ∧ env.unmarshal data = .ok entry := by
  unfold parsed at h
  split at h
  · cases h
  · rename_i hm
    refine ⟨hm, ?_⟩
    split at h
    · cases h
    · rename_i data hdata
      refine ⟨data, hdata, ?_⟩
      split at h
      · cases h
      · rename_i e he
        cases h
        exact he

theorem hasTitle_iff (e : Entry) : e.hasTitle ↔ ∃ t, e.Title = some t ∧ t ≠ "" := by
  cases ht : e.Title <;> simp [Entry.hasTitle, ht]

theorem hasHRef_iff (e : Entry) : e.hasHRef ↔ ∃ h, e.HRef = some h ∧ h ≠ "" := by
  cases hh : e.HRef <;> simp [Entry.hasHRef, hh]

theorem not_hasTitle_iff (e : Entry) : ¬ e.hasTitle ↔ e.Title = none ∨ e.Title = some "" := by
  cases ht : e.Title <;> simp [Entry.hasTitle, ht]

theorem not_hasLink_iff (e : Entry) : ¬ e.hasLink ↔ e.Link = none ∨ e.Link = some "" := by
  cases hl : e.Link <;> simp [Entry.hasLink, hl]

theorem not_hasEntries_iff (e : Entry) :
    ¬ e.hasEntries ↔ e.Entries = none ∨ e.Entries = some [] := by
  cases hl : e.Entries with
  | none => simp [Entry.hasEntries, hl]
  | some es => cases es <;> simp [Entry.hasEntries, hl]

/-- Resolving a direct entry whose nested calls do not panic: for a depth of at
most 10 and a reference that parses to a titled node without href whose children
list `cs` is present, `Load` succeeds, keeps title, link and href, and its
children are the walk of the spec over `cs`. -/
theorem Load_direct_children (env : Env) (d : Nat) (manifest : String)
    (entry : Entry) (cs : List Entry)
    (hd : d ≤ 10) (hp : parsed env manifest = some entry)
    (ht : entry.hasTitle) (hh : entry.HRef = none) (hcs : entry.Entries = some cs)
    (hnp : ∀ child ∈ cs, child.hasHRef →
        ∀ evs, Load env (some (d + 1)) (child.HRef.getD "") ≠ some (evs, .panic)) :
    Load env (some d) manifest =
      some ((readData env manifest).1 :: childEvents (Load env (some (d + 1))) cs,
        .ret (entry.setEntries (resolveChildren (Load env (some (d + 1))) cs))) := by
  obtain ⟨hm, data, hdata, hparse⟩ := parsed_eq_some hp
  obtain ⟨t, ht, htne⟩ := (hasTitle_iff _).1 ht
  rw [Load_unfold, LoadBody_direct env _ (checkCount_le hd) hm hdata hparse ht htne hh hcs,
    rangeEntries_eq _ (Load_ne_none env _) cs [] hnp]
  simp

/-- A valid mountpoint hands over to the call of line 106. -/
theorem Load_mount (env : Env) {d : Nat} {manifest h : String} {entry : Entry}
    (hd : d ≤ 10) (hp : parsed env manifest = some entry) (hmt : entry.mountsTo h) :
    Load env (some d) manifest =
      match Load env (some (d + 1)) h with
      | none => none
      | some (evs, r) => some ((readData env manifest).1 :: evs, r) := by
  obtain ⟨hm, data, hdata, hparse⟩ := parsed_eq_some hp
  obtain ⟨ht, hh, hhne, hl, hcs⟩ := hmt
  rw [Load_unfold]
  exact LoadBody_mount env _ (checkCount_le hd) hm hdata hparse
    ((not_hasTitle_iff _).1 ht) hh hhne ((not_hasLink_iff _).1 hl) ((not_hasEntries_iff _).1 hcs)

/-- Claim C2: for a depth of at most 10 and a reference that parses to a valid
mountpoint to `h`, `Load` ends exactly as the nested `Load` of `h` one level
deeper does: the same entry on success, the same error on failure (and the same
panic), after the calls of the nested run; there is no other outcome. -/
theorem Load_mountpoint_atomic (env : Env) (d : Nat) (manifest h : String) (entry : Entry)
    (hd : d ≤ 10) (hp : parsed env manifest = some entry) (hmt : entry.mountsTo h) :
    ∃ evs r, Load env (some (d + 1)) h = some (evs, r) ∧
      Load env (some d) manifest = some ((readData env manifest).1 :: evs, r) := by
  rw [Load_mount env hd hp hmt]
  cases hl : Load env (some (d + 1)) h with
  | none => exact absurd hl (Load_ne_none env _ _)
  | some run => exact ⟨run.1, run.2, rfl, rfl⟩

/-- Claim C2 at a concrete input (mountpoint atomicity): the root is a mountpoint whose
target cannot be read, and the read error is what `Load` returns. -/
theorem Load_mountpoint_atomic_witness :
    ∃ evs r, Load brokenMountEnv (some 1) "missing.json" = some (evs, r) ∧
      Load brokenMountEnv (some 0) "root.json" = some (Event.readFile "root.json" :: evs, r) :=
  Load_mountpoint_atomic brokenMountEnv 0 "root.json" "missing.json" (mount "missing.json")
    (by decide) rfl (by decide)

/-- Claim C6 (what the code does instead): for a depth of at most 10 and a
reference that parses to a node with a non-empty title, no href and no `entries`
field, `Load` panics at line 78 on the nil `Entries` pointer, right after reading
the document; it returns neither an entry nor an error. -/
theorem Load_direct_without_entries_panics (env : Env) (d : Nat) (manifest : String)
    (entry : Entry) (hd : d ≤ 10) (hp : parsed env manifest = some entry)
    (ht : entry.hasTitle) (hh : entry.HRef = none) (hcs : entry.Entries = none) :
    Load env (some d) manifest = some ([(readData env manifest).1], .panic) := by
  obtain ⟨hm, data, hdata, hparse⟩ := parsed_eq_some hp
  obtain ⟨t, ht, htne⟩ := (hasTitle_iff _).1 ht
  rw [Load_unfold]
  exact LoadBody_direct_nil env _ (checkCount_le hd) hm hdata hparse ht htne hh hcs

/-- Claim C6 at a concrete input: the document `{"title":"Intro","link":"intro.html"}`
makes `Load` panic. -/
theorem Load_direct_without_entries_panics_witness :
    Load leafEnv (some 0) "leaf.json" = some ([Event.readFile "leaf.json"], .panic) :=
  Load_direct_without_entries_panics leafEnv 0 "leaf.json"
    (.mk (some "Intro") (some "intro.html") none none) (by decide) rfl (by decide) rfl rfl

/-! ## The failing branches -/

theorem LoadBody_count_error (env : Env) (L : Option Nat → String → Run Entry)
    {ctx : Option Nat} {err : Error} (manifest : String) (hc : checkCount ctx = .error err) :
    LoadBody env L ctx manifest = some ([], .fail err) := by
  unfold LoadBody
  simp [hc]

theorem LoadBody_empty (env : Env) (L : Option Nat → String → Run Entry)
    {ctx : Option Nat} {c : Nat} (hc : checkCount ctx = .ok c) :
    LoadBody env L ctx "" = some ([], .fail (.invalidManifest "")) := by
  unfold LoadBody
  simp [hc]

theorem LoadBody_read_error (env : Env) (L : Option Nat → String → Run Entry)
    {ctx : Option Nat} {c : Nat} {manifest : String} {err : Error}
    (hc : checkCount ctx = .ok c) (hm : manifest ≠ "")
    (hdata : (readData env manifest).2 = .error err) :
    LoadBody env L ctx manifest = some ([(readData env manifest).1], .fail err) := by
  unfold LoadBody
  simp [hc, hm, hdata]

theorem LoadBody_parse_error (env : Env) (L : Option Nat → String → Run Entry)
    {ctx : Option Nat} {c : Nat} {manifest : String} {data : Bytes} {err : Error}
    (hc : checkCount ctx = .ok c) (hm : manifest ≠ "")
    (hdata : (readData env manifest).2 = .ok data) (hparse : env.unmarshal data = .error err) :
    LoadBody env L ctx manifest = some ([(readData env manifest).1], .fail err) := by
  unfold LoadBody
  simp [hc, hm, hdata, hparse]

/-- Line 73: a titled node with an href pointer that is not nil. -/
theorem LoadBody_title_href (env : Env) (L : Option Nat → String → Run Entry)
    {ctx : Option Nat} {c : Nat} {manifest : String} {data : Bytes} {entry : Entry}
    {t h : String}
    (hc : checkCount ctx = .ok c) (hm : manifest ≠ "")
    (hdata : (readData env manifest).2 = .ok data) (hparse : env.unmarshal data = .ok entry)
    (ht : entry.Title = some t) (htne : t ≠ "") (hh : entry.HRef = some h) :
    LoadBody env L ctx manifest =
      some ([(readData env manifest).1], .fail (.mustNotHaveManifest t h)) := by
  unfold LoadBody
  simp [hc, hm, hdata, hparse, ht, htne, hh]

/-- Line 98: an untitled node with a non-empty href and a non-empty link. -/
theorem LoadBody_mount_link (env : Env) (L : Option Nat → String → Run Entry)
    {ctx : Option Nat} {c : Nat} {manifest : String} {data : Bytes} {entry : Entry}
    (hc : checkCount ctx = .ok c) (hm : manifest ≠ "")
    (hdata : (readData env manifest).2 = .ok data) (hparse : env.unmarshal data = .ok entry)
    (ht : ¬ entry.hasTitle) (hh : entry.hasHRef) (hl : entry.hasLink) :
    LoadBody env L ctx manifest = some ([(readData env manifest).1], .fail .mountpointLink) := by
  unfold LoadBody
  simp only [hc, hm, hdata, hparse]
  simp only [Entry.hasTitle, Entry.hasHRef, Entry.hasLink] at ht hh hl
  simp [ht, hh, hl]

/-- Line 101: an untitled node with a non-empty href, no usable link and children. -/
theorem LoadBody_mount_entries (env : Env) (L : Option Nat → String → Run Entry)
    {ctx : Option Nat} {c : Nat} {manifest : String} {data : Bytes} {entry : Entry}
    (hc : checkCount ctx = .ok c) (hm : manifest ≠ "")
    (hdata : (readData env manifest).2 = .ok data) (hparse : env.unmarshal data = .ok entry)
    (ht : ¬ entry.hasTitle) (hh : entry.hasHRef) (hl : ¬ entry.hasLink)
    (hcs : entry.hasEntries) :
    LoadBody env L ctx manifest =
      some ([(readData env manifest).1], .fail .mountpointSubentries) := by
  unfold LoadBody
  simp only [hc, hm, hdata, hparse]
  simp only [Entry.hasTitle, Entry.hasHRef, Entry.hasLink, Entry.hasEntries] at ht hh hl hcs
  simp [ht, hh, hl, hcs]

/-- Lines 93 and 111: a node with neither a usable title nor a usable href. -/
theorem LoadBody_neither (env : Env) (L : Option Nat → String → Run Entry)
    {ctx : Option Nat} {c : Nat} {manifest : String} {data : Bytes} {entry : Entry}
    (hc : checkCount ctx = .ok c) (hm : manifest ≠ "")
    (hdata : (readData env manifest).2 = .ok data) (hparse : env.unmarshal data = .ok entry)
    (ht : ¬ entry.hasTitle) (hh : ¬ entry.hasHRef) :
    LoadBody env L ctx manifest = some ([(readData env manifest).1], .ret entry) := by
  unfold LoadBody
  simp only [hc, hm, hdata, hparse]
  simp only [Entry.hasTitle, Entry.hasHRef] at ht hh
  simp [ht, hh]

/-! ## Depth, reference, reading and parsing errors -/

/-- Claim C8: above depth 10 `Load` fails at once with "recursion too deep",
for every reference (the empty one included) and whatever the environment holds,
without any read; up to depth 10, and without a counter, the depth check lets the
call through with its counter. -/
theorem Load_depth_check (env : Env) (d : Nat) (manifest : String) :
    (10 < d → Load env (some d) manifest = some ([], .fail .recursionTooDeep) ∧
      Load env (some d) "" = some ([], .fail .recursionTooDeep)) ∧
    (d ≤ 10 → checkCount (some d) = .ok d) ∧ checkCount none = .ok 0 := by
  refine ⟨fun hd => ⟨?_, ?_⟩, fun hd => checkCount_le hd, rfl⟩
  · rw [Load_unfold]; exact LoadBody_count_error env _ _ (checkCount_gt hd)
  · rw [Load_unfold]; exact LoadBody_count_error env _ _ (checkCount_gt hd)

/-- Claim C8 at concrete inputs: the depth check at depth 11 (rejected, before the reference is looked at)
and at depth 10 (passed). -/
theorem Load_depth_check_witness :
    (Load docsEnv (some 11) "root.json" = some ([], .fail .recursionTooDeep) ∧
      Load docsEnv (some 11) "" = some ([], .fail .recursionTooDeep)) ∧
    checkCount (some 10) = .ok 10 :=
  ⟨(Load_depth_check docsEnv 11 "root.json").1 (by decide),
    (Load_depth_check docsEnv 10 "root.json").2.1 (by decide)⟩

/-- Claim C9: for a depth of at most 10, and for a call without a counter,
`Load` of the empty reference fails with the invalid-reference error and makes
no call to the network or to the file system, whatever the environment holds. -/
theorem Load_empty_reference (env : Env) (d : Nat) (hd : d ≤ 10) :
    Load env (some d) "" = some ([], .fail (.invalidManifest "")) ∧
    Load env none "" = some ([], .fail (.invalidManifest "")) := by
  constructor
  · rw [Load_unfold]; exact LoadBody_empty env _ (checkCount_le hd)
  · rw [Load_unfold]; exact LoadBody_empty env _ checkCount_none

/-- Claim C9 at a concrete input: the empty reference at depth 3, in a world where every file read would
succeed. -/
theorem Load_empty_reference_witness :
    Load ⟨fun _ => .ok ⟨.ok []⟩, fun _ => .ok [], fun _ => .ok (node "Docs" [])⟩ (some 3) "" =
        some ([], .fail (.invalidManifest "")) ∧
    Load ⟨fun _ => .ok ⟨.ok []⟩, fun _ => .ok [], fun _ => .ok (node "Docs" [])⟩ none "" =
        some ([], .fail (.invalidManifest "")) :=
  Load_empty_reference _ 3 (by decide)

/-- Claim C10: for a depth of at most 10 and a non-empty reference, an error of
the read is returned as it is, and when the read succeeds an error of the parse
is returned as it is; either way no entry comes back and the read of the
reference is the only call made. -/
theorem Load_read_or_parse_error (env : Env) (d : Nat) (manifest : String)
    (hd : d ≤ 10) (hm : manifest ≠ "") :
    (∀ err, (readData env manifest).2 = .error err →
      Load env (some d) manifest = some ([(readData env manifest).1], .fail err)) ∧
    (∀ data err, (readData env manifest).2 = .ok data → env.unmarshal data = .error err →
      Load env (some d) manifest = some ([(readData env manifest).1], .fail err)) := by
  constructor
  · intro err hdata
    rw [Load_unfold]
    exact LoadBody_read_error env _ (checkCount_le hd) hm hdata
  · intro data err hdata hparse
    rw [Load_unfold]
    exact LoadBody_parse_error env _ (checkCount_le hd) hm hdata hparse

/-- Claim C10 at concrete inputs: a file that does not exist, and a file whose
content is not a document. -/
theorem Load_read_or_parse_error_witness :
    Load brokenMountEnv (some 0) "missing.json" =
        some ([Event.readFile "missing.json"], .fail (.library "no such file")) ∧
    Load ⟨fun _ => .error (.library "no network"), fun _ => .ok (bytesOf "\x7b"),
          fun _ => .error (.library "unexpected end of JSON input")⟩ (some 0) "bad.json" =
        some ([Event.readFile "bad.json"], .fail (.library "unexpected end of JSON input")) :=
  ⟨(Load_read_or_parse_error brokenMountEnv 0 "missing.json" (by decide) (by decide)).1
      (.library "no such file") rfl,
    (Load_read_or_parse_error _ 0 "bad.json" (by decide) (by decide)).2
      (bytesOf "\x7b") (.library "unexpected end of JSON input") rfl rfl⟩

/-! ## Shape validation -/

/-- Claim C5: for a depth of at most 10 and a reference that is read and parsed,
`Load` fails with a validation error, the read of the reference being the only
call made, when the parsed node has (1) a non-empty title and a non-empty href,
or (2) no usable title, a non-empty href and a non-empty link, or (3) no usable
title, a non-empty href and at least one child. -/
theorem Load_shape_violation (env : Env) (d : Nat) (manifest : String) (entry : Entry)
    (hd : d ≤ 10) (hp : parsed env manifest = some entry)
    (hshape : (entry.hasTitle ∧ entry.hasHRef) ∨
      (¬ entry.hasTitle ∧ entry.hasHRef ∧ entry.hasLink) ∨
      (¬ entry.hasTitle ∧ entry.hasHRef ∧ ∃ c cs, entry.Entries = some (c :: cs))) :
    ∃ err, err.isValidation = true ∧
      Load env (some d) manifest = some ([(readData env manifest).1], .fail err) := by
  obtain ⟨hm, data, hdata, hparse⟩ := parsed_eq_some hp
  have hc := checkCount_le hd
  rw [Load_unfold]
  rcases hshape with ⟨ht, hh⟩ | ⟨ht, hh, hl⟩ | ⟨ht, hh, c, cs, hcs⟩
  · obtain ⟨t, ht, htne⟩ := (hasTitle_iff _).1 ht
    obtain ⟨h, hh, _⟩ := (hasHRef_iff _).1 hh
    exact ⟨.mustNotHaveManifest t h, rfl, LoadBody_title_href env _ hc hm hdata hparse ht htne hh⟩
  · exact ⟨.mountpointLink, rfl, LoadBody_mount_link env _ hc hm hdata hparse ht hh hl⟩
  · by_cases hl : entry.hasLink
    · exact ⟨.mountpointLink, rfl, LoadBody_mount_link env _ hc hm hdata hparse ht hh hl⟩
    · refine ⟨.mountpointSubentries, rfl, LoadBody_mount_entries env _ hc hm hdata hparse ht hh hl ?_⟩
      simp [Entry.hasEntries, hcs]

/-- Claim C5 at a concrete input: a mountpoint carrying one child is rejected,
and its target is never read. -/
theorem Load_shape_violation_witness :
    ∃ err, err.isValidation = true ∧
      Load invalidEnv (some 0) "kids.json" = some ([Event.readFile "kids.json"], .fail err) :=
  Load_shape_violation invalidEnv 0 "kids.json" (.mk none none (some [leaf "Intro"]) (some "sub.json"))
    (by decide) rfl (Or.inr (Or.inr ⟨by decide, by decide, leaf "Intro", [], rfl⟩))

/-- The three shape rules, each on a document of its own, with the error raised. -/
theorem Load_invalid_shapes :
    Load invalidEnv none "both.json" =
        some ([.readFile "both.json"], .fail (.mustNotHaveManifest "Docs" "sub.json")) ∧
    Load invalidEnv none "link.json" = some ([.readFile "link.json"], .fail .mountpointLink) ∧
    Load invalidEnv none "kids.json" =
        some ([.readFile "kids.json"], .fail .mountpointSubentries) :=
  ⟨rfl, rfl, rfl⟩

/-- Claim C7 (counterexample): the document `{"title":"Docs","entries":[],"href":""}`
is rejected with "must not have a manifest", while the same document without the
href field is accepted as a direct entry. -/
theorem Load_empty_href_differs :
    Load emptyHRefEnv none "with.json" =
        some ([.readFile "with.json"], .fail (.mustNotHaveManifest "Docs" "")) ∧
    Load emptyHRefEnv none "without.json" =
        some ([.readFile "without.json"], .ret (node "Docs" [])) :=
  ⟨rfl, rfl⟩

/-- Claim C7 (amended): on a node with a non-empty title the check of line 73
only asks whether the href is present: for a depth of at most 10, a document
that parses to a titled node whose href is present, the empty string included,
is rejected with the "must not have a manifest" error naming the title and the
href, and the read of the reference is the only call made. -/
theorem Load_titled_with_href_rejected (env : Env) (d : Nat) (manifest : String)
    (entry : Entry) (t h : String) (hd : d ≤ 10) (hp : parsed env manifest = some entry)
    (ht : entry.Title = some t) (htne : t ≠ "") (hh : entry.HRef = some h) :
    Load env (some d) manifest =
      some ([(readData env manifest).1], .fail (.mustNotHaveManifest t h)) := by
  obtain ⟨hm, data, hdata, hparse⟩ := parsed_eq_some hp
  rw [Load_unfold]
  exact LoadBody_title_href env _ (checkCount_le hd) hm hdata hparse ht htne hh

/-- Claim C7 (amended) at a concrete input: the titled document with `"href":""`,
at depth 0. -/
theorem Load_titled_with_href_rejected_witness :
    Load emptyHRefEnv (some 0) "with.json" =
      some ([Event.readFile "with.json"], .fail (.mustNotHaveManifest "Docs" "")) :=
  Load_titled_with_href_rejected emptyHRefEnv 0 "with.json"
    (.mk (some "Docs") none (some []) (some "")) "Docs" "" (by decide) rfl rfl (by decide) rfl

/-! ## What is resolved in the returned tree -/

theorem setEntries_fields (e : Entry) (es : List Entry) :
    (e.setEntries es).Title = e.Title ∧ (e.setEntries es).Link = e.Link ∧
      (e.setEntries es).Entries = some es ∧ (e.setEntries es).HRef = e.HRef := by
  cases e; exact ⟨rfl, rfl, rfl, rfl⟩

/-- The slice built by the loop holds no mountpoint when the nested calls return none. -/
theorem rangeEntries_no_href (load : String → Run Entry)
    (hload : ∀ r evs e, load r = some (evs, .ret e) → ¬ e.hasHRef) :
    ∀ (cs entries : List Entry) (evs : List Event) (out : List Entry),
      (∀ a ∈ entries, ¬ a.hasHRef) →
      rangeEntries load cs entries = some (evs, .ret out) → ∀ x ∈ out, ¬ x.hasHRef := by
  intro cs
  induction cs with
  | nil =>
    intro entries evs out hacc h
    simp only [rangeEntries, Option.some.injEq, Prod.mk.injEq, Outcome.ret.injEq] at h
    rw [← h.2]; exact hacc
  | cons child rest ih =>
    intro entries evs out hacc h
    unfold rangeEntries at h
    by_cases hm : child.HRef ≠ none ∧ child.HRef ≠ some ""
    · rw [if_pos hm] at h
      cases hl : load (child.HRef.getD "") with
      | none => rw [hl] at h; cases h
      | some run =>
        obtain ⟨evs', r⟩ := run
        rw [hl] at h
        cases r with
        | panic => cases h
        | fail err =>
          obtain ⟨run', hrun, heq⟩ := Option.map_eq_some'.1 h
          obtain ⟨evs'', r''⟩ := run'
          simp only [Prod.mk.injEq] at heq
          rw [heq.2] at hrun
          exact ih entries evs'' out hacc hrun
        | ret e =>
          obtain ⟨run', hrun, heq⟩ := Option.map_eq_some'.1 h
          obtain ⟨evs'', r''⟩ := run'
          simp only [Prod.mk.injEq] at heq
          rw [heq.2] at hrun
          refine ih (entries ++ [e]) evs'' out ?_ hrun
          intro a ha
          rcases List.mem_append.1 ha with ha | ha
          · exact hacc a ha
          · rw [List.mem_singleton.1 ha]; exact hload _ _ _ hl
    · rw [if_neg hm] at h
      refine ih (entries ++ [child]) evs out ?_ h
      intro a ha
      rcases List.mem_append.1 ha with ha | ha
      · exact hacc a ha
      · rw [List.mem_singleton.1 ha]; exact hm

/-- One call keeps the guarantee when the nested calls give it. -/
theorem LoadBody_shallowResolved (env : Env) (L : Option Nat → String → Run Entry)
    (hL : ∀ ctx r evs e, L ctx r = some (evs, .ret e) → e.shallowResolved)
    (ctx : Option Nat) (manifest : String) (evs : List Event) (e : Entry)
    (h : LoadBody env L ctx manifest = some (evs, .ret e)) : e.shallowResolved := by
  unfold LoadBody at h
  cases hc : checkCount ctx with
  | error err => simp [hc] at h
  | ok c =>
    by_cases hm : manifest = ""
    · simp [hc, hm] at h
    cases hdata : (readData env manifest).2 with
    | error err => simp [hc, hm, hdata] at h
    | ok data =>
      cases hparse : env.unmarshal data with
      | error err => simp [hc, hm, hdata, hparse] at h
      | ok entry =>
        simp only [hc, hm, hdata, hparse, if_false] at h
        by_cases ht : entry.Title ≠ none ∧ entry.Title ≠ some ""
        · rw [if_pos ht] at h
          by_cases hh : entry.HRef ≠ none
          · rw [if_pos hh] at h; simp at h
          rw [if_neg hh] at h
          cases hcs : entry.Entries with
          | none => simp [hcs] at h
          | some cs =>
            simp only [hcs] at h
            cases hr : rangeEntries (L (some (c + 1))) cs [] with
            | none => simp [hr] at h
            | some run =>
              obtain ⟨evs', r⟩ := run
              cases r with
              | panic => simp [hr] at h
              | fail err => simp [hr] at h
              | ret out =>
                simp only [hr, Option.some.injEq, Prod.mk.injEq, Outcome.ret.injEq] at h
                obtain ⟨hT, _, hE, hH⟩ := setEntries_fields entry out
                rw [← h.2]
                refine ⟨?_, fun _ => ⟨out, hE, ?_⟩⟩
                · intro hhas
                  exact hh (hH ▸ hhas.1)
                · exact rangeEntries_no_href _ (fun r evs e hl => (hL _ r evs e hl).1)
                    cs [] evs' out (by simp) hr
        · rw [if_neg ht] at h
          by_cases hh : entry.HRef ≠ none ∧ entry.HRef ≠ some ""
          · rw [if_pos hh] at h
            by_cases hl : entry.Link ≠ none ∧ entry.Link ≠ some ""
            · rw [if_pos hl] at h; simp at h
            rw [if_neg hl] at h
            by_cases hcs : entry.Entries.isSome ∧ (entry.Entries.getD []).length > 0
            · rw [if_pos hcs] at h; simp at h
            rw [if_neg hcs] at h
            cases hr : L (some (c + 1)) (entry.HRef.getD "") with
            | none => simp [hr] at h
            | some run =>
              obtain ⟨evs', r⟩ := run
              simp only [hr, Option.some.injEq, Prod.mk.injEq] at h
              exact hL _ _ evs' e (by rw [hr, h.2])
          · rw [if_neg hh] at h
            simp only [Option.some.injEq, Prod.mk.injEq, Outcome.ret.injEq] at h
            rw [← h.2]
            exact ⟨hh, fun htitle => absurd htitle ht⟩

theorem LoadFuel_shallowResolved (env : Env) :
    ∀ fuel ctx manifest evs e,
      LoadFuel env fuel ctx manifest = some (evs, .ret e) → e.shallowResolved := by
  intro fuel
  induction fuel with
  | zero => intro ctx manifest evs e h; cases h
  | succ k ih =>
    intro ctx manifest evs e h
    exact LoadBody_shallowResolved env (LoadFuel env k) (fun c r evs e hl => ih c r evs e hl)
      ctx manifest evs e h

/-- Whatever `Load` returns has no mountpoint at its root, nor among the
children of a titled root. -/
theorem Load_shallowResolved (env : Env) (ctx : Option Nat) (manifest : String)
    (evs : List Event) (e : Entry) (h : Load env ctx manifest = some (evs, .ret e)) :
    e.shallowResolved :=
  LoadFuel_shallowResolved env 12 ctx manifest evs e h

theorem resolvedList_iff (l : List Entry) :
    resolvedList l = true ↔ ∀ x ∈ l, x.resolved = true := by
  induction l with
  | nil => simp [resolvedList]
  | cons a l ih => simp [resolvedList, ih]

theorem resolved_iff (e : Entry) :
    e.resolved = true ↔ ¬ e.hasHRef ∧ resolvedOpt e.Entries = true := by
  cases e with
  | mk t l es h =>
    cases h <;> simp [Entry.resolved, Entry.hasHRef, Entry.HRef, Entry.Entries]

theorem parsed_of {env : Env} {manifest : String} {data : Bytes} {entry : Entry}
    (hm : manifest ≠ "") (hdata : (readData env manifest).2 = .ok data)
    (hparse : env.unmarshal data = .ok entry) : parsed env manifest = some entry := by
  simp [parsed, hm, hdata, hparse]

theorem docsInlineResolved_cons {env : Env} {ev : Event} {evs : List Event}
    (h : docsInlineResolved env (ev :: evs)) : docsInlineResolved env evs :=
  fun m entry hm hp => h m entry (List.mem_cons_of_mem _ hm) hp

theorem docsInlineResolved_append {env : Env} {evs₁ evs₂ : List Event}
    (h : docsInlineResolved env (evs₁ ++ evs₂)) :
    docsInlineResolved env evs₁ ∧ docsInlineResolved env evs₂ :=
  ⟨fun m entry hm hp => h m entry (List.mem_append.2 (Or.inl hm)) hp,
    fun m entry hm hp => h m entry (List.mem_append.2 (Or.inr hm)) hp⟩

/-- The slice built by the loop is resolved at every level when the copied
children and the results of the nested calls are. -/
theorem rangeEntries_resolved (env : Env) (load : String → Run Entry)
    (hload : ∀ r evs e, load r = some (evs, .ret e) → docsInlineResolved env evs →
      e.resolved = true) :
    ∀ (cs entries : List Entry) (evs : List Event) (out : List Entry),
      (∀ a ∈ entries, a.resolved = true) →
      (∀ c ∈ cs, ¬ c.hasHRef → c.resolved = true) →
      rangeEntries load cs entries = some (evs, .ret out) → docsInlineResolved env evs →
      ∀ x ∈ out, x.resolved = true := by
  intro cs
  induction cs with
  | nil =>
    intro entries evs out hacc _ h _
    simp only [rangeEntries, Option.some.injEq, Prod.mk.injEq, Outcome.ret.injEq] at h
    rw [← h.2]; exact hacc
  | cons child rest ih =>
    intro entries evs out hacc hcs h hdocs
    have hrest : ∀ c ∈ rest, ¬ c.hasHRef → c.resolved = true :=
      fun c hc => hcs c (List.mem_cons_of_mem _ hc)
    unfold rangeEntries at h
    by_cases hm : child.HRef ≠ none ∧ child.HRef ≠ some ""
    · rw [if_pos hm] at h
      cases hl : load (child.HRef.getD "") with
      | none => rw [hl] at h; cases h
      | some run =>
        obtain ⟨evs', r⟩ := run
        rw [hl] at h
        cases r with
        | panic => cases h
        | fail err =>
          obtain ⟨run', hrun, heq⟩ := Option.map_eq_some'.1 h
          obtain ⟨evs'', r''⟩ := run'
          simp only [Prod.mk.injEq] at heq
          rw [heq.2] at hrun
          rw [← heq.1] at hdocs
          exact ih entries evs'' out hacc hrest hrun (docsInlineResolved_append hdocs).2
        | ret e =>
          obtain ⟨run', hrun, heq⟩ := Option.map_eq_some'.1 h
          obtain ⟨evs'', r''⟩ := run'
          simp only [Prod.mk.injEq] at heq
          rw [heq.2] at hrun
          rw [← heq.1] at hdocs
          refine ih (entries ++ [e]) evs'' out ?_ hrest hrun (docsInlineResolved_append hdocs).2
          intro a ha
          rcases List.mem_append.1 ha with ha | ha
          · exact hacc a ha
          · rw [List.mem_singleton.1 ha]
            exact hload _ _ _ hl (docsInlineResolved_append hdocs).1
    · rw [if_neg hm] at h
      refine ih (entries ++ [child]) evs out ?_ hrest h hdocs
      intro a ha
      rcases List.mem_append.1 ha with ha | ha
      · exact hacc a ha
      · rw [List.mem_singleton.1 ha]
        exact hcs child (List.mem_cons_self _ _) hm

/-- One call returns a tree resolved at every level when the nested calls do
and the documents read satisfy `inlineResolved`. -/
theorem LoadBody_resolved (env : Env) (L : Option Nat → String → Run Entry)
    (hL : ∀ ctx r evs e, L ctx r = some (evs, .ret e) → docsInlineResolved env evs →
      e.resolved = true)
    (ctx : Option Nat) (manifest : String) (evs : List Event) (e : Entry)
    (h : LoadBody env L ctx manifest = some (evs, .ret e))
    (hdocs : docsInlineResolved env evs) : e.resolved = true := by
  unfold LoadBody at h
  cases hc : checkCount ctx with
  | error err => simp [hc] at h
  | ok c =>
    by_cases hm : manifest = ""
    · simp [hc, hm] at h
    cases hdata : (readData env manifest).2 with
    | error err => simp [hc, hm, hdata] at h
    | ok data =>
      cases hparse : env.unmarshal data with
      | error err => simp [hc, hm, hdata, hparse] at h
      | ok entry =>
        have hp := parsed_of hm hdata hparse
        simp only [hc, hm, hdata, hparse, if_false] at h
        by_cases ht : entry.Title ≠ none ∧ entry.Title ≠ some ""
        · rw [if_pos ht] at h
          by_cases hh : entry.HRef ≠ none
          · rw [if_pos hh] at h; simp at h
          rw [if_neg hh] at h
          cases hcs : entry.Entries with
          | none => simp [hcs] at h
          | some cs =>
            simp only [hcs] at h
            cases hr : rangeEntries (L (some (c + 1))) cs [] with
            | none => simp [hr] at h
            | some run =>
              obtain ⟨evs', r⟩ := run
              cases r with
              | panic => simp [hr] at h
              | fail err => simp [hr] at h
              | ret out =>
                simp only [hr, Option.some.injEq, Prod.mk.injEq, Outcome.ret.injEq] at h
                obtain ⟨_, _, hE, hH⟩ := setEntries_fields entry out
                rw [← h.1] at hdocs
                have hin := hdocs manifest entry (List.mem_cons_self _ _) hp
                have hkids : ∀ c ∈ cs, ¬ c.hasHRef → c.resolved = true := by
                  intro c hcmem hnot
                  have hall : (cs.all fun c => decide c.hasHRef || c.resolved) = true := by
                    have ht' : entry.hasTitle := ht
                    rw [Entry.inlineResolved, if_pos ht', hcs] at hin
                    exact hin
                  have := List.all_eq_true.1 hall c hcmem
                  simpa [hnot] using this
                have hout := rangeEntries_resolved env _ (fun r evs e hl => hL _ r evs e hl)
                  cs [] evs' out (by simp) hkids hr (docsInlineResolved_cons hdocs)
                rw [← h.2, resolved_iff, hE]
                refine ⟨fun hhas => hh (hH ▸ hhas.1), ?_⟩
                simpa [resolvedOpt] using (resolvedList_iff out).2 hout
        · rw [if_neg ht] at h
          by_cases hh : entry.HRef ≠ none ∧ entry.HRef ≠ some ""
          · rw [if_pos hh] at h
            by_cases hl : entry.Link ≠ none ∧ entry.Link ≠ some ""
            · rw [if_pos hl] at h; simp at h
            rw [if_neg hl] at h
            by_cases hcs : entry.Entries.isSome ∧ (entry.Entries.getD []).length > 0
            · rw [if_pos hcs] at h; simp at h
            rw [if_neg hcs] at h
            cases hr : L (some (c + 1)) (entry.HRef.getD "") with
            | none => simp [hr] at h
            | some run =>
              obtain ⟨evs', r⟩ := run
              simp only [hr, Option.some.injEq, Prod.mk.injEq] at h
              rw [← h.1] at hdocs
              exact hL _ _ evs' e (by rw [hr, h.2]) (docsInlineResolved_cons hdocs)
          · rw [if_neg hh] at h
            simp only [Option.some.injEq, Prod.mk.injEq, Outcome.ret.injEq] at h
            rw [← h.1] at hdocs
            have hin := hdocs manifest entry (List.mem_singleton.2 rfl) hp
            rw [← h.2, resolved_iff]
            have ht' : ¬ entry.hasTitle := ht
            rw [Entry.inlineResolved, if_neg ht'] at hin
            exact ⟨hh, hin⟩

theorem LoadFuel_resolved (env : Env) :
    ∀ fuel ctx manifest evs e,
      LoadFuel env fuel ctx manifest = some (evs, .ret e) → docsInlineResolved env evs →
      e.resolved = true := by
  intro fuel
  induction fuel with
  | zero => intro ctx manifest evs e h; cases h
  | succ k ih =>
    intro ctx manifest evs e h hdocs
    exact LoadBody_resolved env (LoadFuel env k) (fun c r evs e hl hd => ih c r evs e hl hd)
      ctx manifest evs e h hdocs

/-- Whatever `Load` returns is resolved at every level when the documents it
read satisfy `inlineResolved`. -/
theorem Load_resolved (env : Env) (ctx : Option Nat) (manifest : String)
    (evs : List Event) (e : Entry) (h : Load env ctx manifest = some (evs, .ret e))
    (hdocs : docsInlineResolved env evs) : e.resolved = true :=
  LoadFuel_resolved env 12 ctx manifest evs e h hdocs

/-- The call that reads a reference names it. -/
theorem readData_event (env : Env) (m : String) :
    (readData env m).1 = .download m ∨ (readData env m).1 = .readFile m := by
  unfold readData
  split
  · exact Or.inl rfl
  · exact Or.inr rfl

theorem readData_readFile {env : Env} {m path : String}
    (h : (readData env m).1 = .readFile path) : m = path := by
  rcases readData_event env m with h' | h' <;> rw [h'] at h <;> cases h
  rfl

/-- Claim C3 (counterexample): the top-level `Load` of a direct entry whose
inline child `Part` holds a mountpoint succeeds, reads nothing but the root
document, and returns the tree as parsed: the mountpoint under `Part` is still
there. -/
theorem Load_keeps_nested_mountpoint :
    Load deepEnv none "root.json" =
        some ([.readFile "root.json"], .ret (node "Docs" [node "Part" [mount "sub.json"]])) ∧
    (node "Docs" [node "Part" [mount "sub.json"]]).resolved = false :=
  ⟨rfl, rfl⟩

/-- Claim C3 (amended): whenever the top-level `Load` succeeds, the root of the
returned tree carries no non-empty href and, when that root has a non-empty
title, it has a children list none of whose members carries a non-empty href;
and no node anywhere in the returned tree, at any nesting level, carries a
non-empty href as soon as every document read on the way keeps its mountpoints
where `Load` looks for them: in a titled document every child without a
non-empty href holds no non-empty href at any level, and in a document without
a usable title the children list holds none. -/
theorem Load_top_level_resolved (env : Env) (manifest : String) (evs : List Event) (e : Entry)
    (h : Load env none manifest = some (evs, .ret e)) :
    (¬ e.hasHRef ∧ (e.hasTitle → ∃ cs, e.Entries = some cs ∧ ∀ c ∈ cs, ¬ c.hasHRef)) ∧
    ((∀ m entry, (readData env m).1 ∈ evs → parsed env m = some entry →
        entry.inlineResolved = true) → e.resolved = true) :=
  ⟨Load_shallowResolved env none manifest evs e h,
    fun hdocs => Load_resolved env none manifest evs e h hdocs⟩

/-- Claim C3 (amended) at a concrete input: mountpoints nested three levels deep
through children lists.  The four documents are read in order, each satisfies
the condition, and the returned tree carries no href at any level. -/
theorem Load_top_level_resolved_witness :
    Load nestedEnv none "root.json" =
      some ([.readFile "root.json", .readFile "a.json", .readFile "b.json", .readFile "c.json"],
        .ret (node "Docs" [node "A" [node "Intro" [], node "B" [node "C" []]]])) ∧
    ¬ (node "Docs" [node "A" [node "Intro" [], node "B" [node "C" []]]]).hasHRef ∧
    (node "Docs" [node "A" [node "Intro" [], node "B" [node "C" []]]]).resolved = true := by
  have h := Load_top_level_resolved nestedEnv "root.json"
    [.readFile "root.json", .readFile "a.json", .readFile "b.json", .readFile "c.json"]
    (node "Docs" [node "A" [node "Intro" [], node "B" [node "C" []]]]) rfl
  refine ⟨rfl, h.1.1, h.2 ?_⟩
  intro m entry hmem hp
  simp only [List.mem_cons, List.mem_singleton, List.not_mem_nil, or_false] at hmem
  rcases hmem with hm | hm | hm | hm
  · have hm' := readData_readFile hm
    subst hm'
    have hq : parsed nestedEnv "root.json" = some (node "Docs" [mount "a.json"]) := rfl
    rw [hq] at hp; cases hp; decide
  · have hm' := readData_readFile hm
    subst hm'
    have hq : parsed nestedEnv "a.json" = some (node "A" [node "Intro" [], mount "b.json"]) := rfl
    rw [hq] at hp; cases hp; decide
  · have hm' := readData_readFile hm
    subst hm'
    have hq : parsed nestedEnv "b.json" = some (node "B" [mount "c.json"]) := rfl
    rw [hq] at hp; cases hp; decide
  · have hm' := readData_readFile hm
    subst hm'
    have hq : parsed nestedEnv "c.json" = some (node "C" []) := rfl
    rw [hq] at hp; cases hp; decide

/-! ## Chains of mountpoints -/

theorem resolveChildren_plain (load : String → Run Entry) (cs : List Entry)
    (h : ∀ c ∈ cs, ¬ c.hasHRef) : resolveChildren load cs = cs := by
  induction cs with
  | nil => rfl
  | cons c rest ih =>
    have hc : ¬ (c.HRef ≠ none ∧ c.HRef ≠ some "") := h c (List.mem_cons_self _ _)
    have hrest := ih (fun x hx => h x (List.mem_cons_of_mem _ hx))
    unfold resolveChildren at hrest ⊢
    rw [List.filterMap_cons, if_neg hc]
    simp only [hrest]

theorem childEvents_plain (load : String → Run Entry) (cs : List Entry)
    (h : ∀ c ∈ cs, ¬ c.hasHRef) : childEvents load cs = [] := by
  induction cs with
  | nil => rfl
  | cons c rest ih =>
    have hc : ¬ (c.HRef ≠ none ∧ c.HRef ≠ some "") := h c (List.mem_cons_self _ _)
    have hrest := ih (fun x hx => h x (List.mem_cons_of_mem _ hx))
    unfold childEvents at hrest ⊢
    rw [List.map_cons, List.flatten_cons, if_neg hc, hrest]
    rfl

theorem setEntries_self (e : Entry) (cs : List Entry) (h : e.Entries = some cs) :
    e.setEntries cs = e := by
  cases e
  simp only [Entry.Entries] at h
  simp [Entry.setEntries, h]

/-- A direct entry with a children list and no mountpoint child comes back as parsed. -/
theorem Load_direct_plain (env : Env) {d : Nat} {manifest : String} {entry : Entry}
    {cs : List Entry} (hd : d ≤ 10) (hp : parsed env manifest = some entry)
    (ht : entry.hasTitle) (hh : entry.HRef = none) (hcs : entry.Entries = some cs)
    (hplain : ∀ c ∈ cs, ¬ c.hasHRef) :
    Load env (some d) manifest = some ([(readData env manifest).1], .ret entry) := by
  rw [Load_direct_children env d manifest entry cs hd hp ht hh hcs
    (fun c hc hhas => absurd hhas (hplain c hc)),
    resolveChildren_plain _ cs hplain, childEvents_plain _ cs hplain, setEntries_self _ _ hcs]

/-- Down a chain of mountpoints that ends, at depth at most 10, in a direct entry. -/
theorem Load_chain_ret (env : Env) (r : Nat → String) (N : Nat) (eN : Entry) (cs : List Entry)
    (hN : N ≤ 10)
    (hchain : ∀ i < N, ∃ entry, parsed env (r i) = some entry ∧ entry.mountsTo (r (i + 1)))
    (hp : parsed env (r N) = some eN) (ht : eN.hasTitle) (hh : eN.HRef = none)
    (hcs : eN.Entries = some cs) (hplain : ∀ c ∈ cs, ¬ c.hasHRef) :
    ∀ n j, j + n = N →
      Load env (some j) (r j) = some (chainEvents env r j (n + 1), .ret eN) := by
  intro n
  induction n with
  | zero =>
    intro j hj
    have hj' : j = N := by omega
    subst hj'
    rw [Load_direct_plain env hN hp ht hh hcs hplain]
    rfl
  | succ n ih =>
    intro j hj
    obtain ⟨entry, hpe, hmt⟩ := hchain j (by omega)
    rw [Load_mount env (by omega) hpe hmt, ih (j + 1) (by omega)]
    simp [chainEvents, List.range'_succ]

/-- Down a chain of eleven mountpoints: the twelfth call is refused. -/
theorem Load_chain_too_deep (env : Env) (r : Nat → String)
    (hchain : ∀ i < 11, ∃ entry, parsed env (r i) = some entry ∧ entry.mountsTo (r (i + 1))) :
    ∀ n j, j + n = 11 →
      Load env (some j) (r j) = some (chainEvents env r j n, .fail .recursionTooDeep) := by
  intro n
  induction n with
  | zero =>
    intro j hj
    rw [Load_unfold, LoadBody_count_error env _ _ (checkCount_gt (by omega))]
    rfl
  | succ n ih =>
    intro j hj
    obtain ⟨entry, hpe, hmt⟩ := hchain j (by omega)
    rw [Load_mount env (by omega) hpe hmt, ih (j + 1) (by omega)]
    simp [chainEvents, List.range'_succ]

/-- The depth ceiling along a chain whose last document has a children list:
let `r 0 -> r 1 -> ... -> r N` be a chain of documents, each `r i` below `N` a
valid mountpoint to `r (i + 1)`.  Loaded from the top (no counter), the chain
resolves to the entry of `r N` when `N ≤ 10` and `r N` is a direct entry with a
children list holding no mountpoint, after reading the `N + 1` documents in
order; it fails with "recursion too deep" when `N > 10`, after reading its
first eleven documents; and a mountpoint to itself fails with "recursion too
deep" after being read eleven times. -/
theorem Load_chain (env : Env) (r : Nat → String) (N : Nat)
    (hchain : ∀ i < N, ∃ entry, parsed env (r i) = some entry ∧ entry.mountsTo (r (i + 1))) :
    (N ≤ 10 → ∀ eN cs, parsed env (r N) = some eN → eN.hasTitle → eN.HRef = none →
        eN.Entries = some cs → (∀ c ∈ cs, ¬ c.hasHRef) →
        Load env none (r 0) = some (chainEvents env r 0 (N + 1), .ret eN)) ∧
    (10 < N →
        Load env none (r 0) = some (chainEvents env r 0 11, .fail .recursionTooDeep)) ∧
    (∀ ref entry, parsed env ref = some entry → entry.mountsTo ref →
        Load env none ref =
          some (List.replicate 11 (readData env ref).1, .fail .recursionTooDeep)) := by
  refine ⟨?_, ?_, ?_⟩
  · intro hN eN cs hp ht hh hcs hplain
    rw [Load_none]
    exact Load_chain_ret env r N eN cs hN hchain hp ht hh hcs hplain N 0 (by omega)
  · intro hN
    rw [Load_none]
    exact Load_chain_too_deep env r (fun i hi => hchain i (by omega)) 11 0 (by omega)
  · intro ref entry hp hmt
    rw [Load_none]
    have h := Load_chain_too_deep env (fun _ => ref) (fun _ _ => ⟨entry, hp, hmt⟩) 11 0 rfl
    rw [h]
    simp [chainEvents, List.replicate]

/-- The depth ceiling at concrete inputs: two hops to a direct entry; ten hops
(`b1.json` to `b11.json`) resolve to the last document; eleven hops (`b0.json`
to `b11.json`) fail; a mountpoint to itself fails. -/
theorem Load_chain_witness :
    Load chainEnv none "a0.json" =
        some ([.readFile "a0.json", .readFile "a1.json", .readFile "a2.json"],
          .ret (node "End" [leaf "Intro"])) ∧
    Load chainEnv none "b1.json" = some (chainEvents chainEnv (chainB 1) 0 11, .ret (node "Far" [])) ∧
    Load chainEnv none "b0.json" =
        some (chainEvents chainEnv (chainB 0) 0 11, .fail .recursionTooDeep) ∧
    Load chainEnv none "loop.json" =
        some (List.replicate 11 (.readFile "loop.json"), .fail .recursionTooDeep) :=
  ⟨(Load_chain chainEnv chainA 2
      (fun i hi => by interval_cases i <;> exact ⟨_, rfl, by decide⟩)).1
      (by decide) (node "End" [leaf "Intro"]) [leaf "Intro"] rfl (by decide) rfl rfl (by decide),
    (Load_chain chainEnv (chainB 1) 10
      (fun i hi => by interval_cases i <;> exact ⟨_, rfl, by decide⟩)).1
      (by decide) (node "Far" []) [] rfl (by decide) rfl rfl (by decide),
    (Load_chain chainEnv (chainB 0) 11
      (fun i hi => by interval_cases i <;> exact ⟨_, rfl, by decide⟩)).2.1 (by decide),
    (Load_chain chainEnv chainA 0 (fun i hi => absurd hi (Nat.not_lt_zero i))).2.2
      "loop.json" (mount "loop.json") rfl (by decide)⟩


/-- Claim C4 (code evaluated at the failing input): a chain of one hop,
`m.json -> leaf.json`, whose last document is the direct entry with title
"Intro", no href and no `entries` field.  The call for `leaf.json` dereferences
the nil `Entries` pointer at line 78 and panics, and so does the top-level
`Load`, instead of returning the entry of `leaf.json`. -/
theorem Load_chain_to_leaf_panics :
    Load chainLeafEnv none "m.json" =
      some ([.readFile "m.json", .readFile "leaf.json"], .panic) := by
  rfl

/-! ## Which call reads the reference -/

theorem isRemote_iff (manifest : String) :
    isRemote manifest = true ↔
      "https://".toList <+: toLower manifest ∨ "http://".toList <+: toLower manifest := by
  simp [isRemote, List.isPrefixOf_iff_prefix]

/-- A call that gets past the depth and reference checks starts by reading the reference. -/
theorem LoadBody_first_event (env : Env) (L : Option Nat → String → Run Entry)
    {ctx : Option Nat} {c : Nat} {manifest : String}
    (hc : checkCount ctx = .ok c) (hm : manifest ≠ "") (hL : ∀ r, L (some (c + 1)) r ≠ none) :
    ∃ evs r, LoadBody env L ctx manifest = some ((readData env manifest).1 :: evs, r) := by
  have hr := rangeEntries_ne_none (L (some (c + 1))) hL
  unfold LoadBody
  simp only [hc, hm, if_false]
  repeat' split
  all_goals first
    | (rename_i heq; exact absurd heq (hr _ _))
    | (rename_i heq; exact absurd heq (hL _))
    | exact ⟨_, _, rfl⟩

theorem Load_first_event (env : Env) {d : Nat} {manifest : String}
    (hd : d ≤ 10) (hm : manifest ≠ "") :
    ∃ evs r, Load env (some d) manifest = some ((readData env manifest).1 :: evs, r) := by
  rw [Load_unfold]
  exact LoadBody_first_event env _ (checkCount_le hd) hm (fun r => Load_ne_none env _ r)

/-- The strings named by the spec and their neighbours, through the test of line 54. -/
theorem isRemote_examples :
    isRemote "HTTP://x" = true ∧ isRemote "HtTpS://x" = true ∧ isRemote "https://x" = true ∧
    isRemote "ftp://x" = false ∧ isRemote "http:/x" = false ∧ isRemote "sub.json" = false ∧
    isRemote " http://x" = false := by
  decide

/-- Claim C11: the way a reference is read is a function of the reference alone.
It is remote exactly when its lower-cased form starts with "https://" or
"http://".  For a depth of at most 10 and a non-empty reference, a remote
reference is read by `DownloadFile` and any other one by `ioutil.ReadFile`, and
that read is the first call `Load` makes. -/
theorem Load_fetch_route (env : Env) (d : Nat) (manifest : String)
    (hd : d ≤ 10) (hm : manifest ≠ "") :
    (isRemote manifest = true ↔
      "https://".toList <+: toLower manifest ∨ "http://".toList <+: toLower manifest) ∧
    (isRemote manifest = true →
      readData env manifest = (.download manifest, DownloadFile env manifest) ∧
      ∃ evs r, Load env (some d) manifest = some (.download manifest :: evs, r)) ∧
    (isRemote manifest = false →
      readData env manifest = (.readFile manifest, env.readFile manifest) ∧
      ∃ evs r, Load env (some d) manifest = some (.readFile manifest :: evs, r)) := by
  obtain ⟨evs, r, h⟩ := Load_first_event env hd hm
  refine ⟨isRemote_iff manifest, fun hr => ?_, fun hr => ?_⟩
  · have hrd : readData env manifest = (.download manifest, DownloadFile env manifest) := by
      simp [readData, hr]
    exact ⟨hrd, evs, r, by rw [h, hrd]⟩
  · have hrd : readData env manifest = (.readFile manifest, env.readFile manifest) := by
      simp [readData, hr]
    exact ⟨hrd, evs, r, by rw [h, hrd]⟩

/-- Claim C11 at concrete inputs: "HtTpS://x" and "HTTP://x" are downloaded,
"http:/x", "ftp://x" and "sub.json" are read from local storage. -/
theorem Load_fetch_route_witness :
    (∃ evs r, Load docsEnv (some 0) "HtTpS://x" = some (.download "HtTpS://x" :: evs, r)) ∧
    (∃ evs r, Load docsEnv (some 0) "HTTP://x" = some (.download "HTTP://x" :: evs, r)) ∧
    (∃ evs r, Load docsEnv (some 0) "http:/x" = some (.readFile "http:/x" :: evs, r)) ∧
    (∃ evs r, Load docsEnv (some 0) "ftp://x" = some (.readFile "ftp://x" :: evs, r)) ∧
    (∃ evs r, Load docsEnv (some 0) "sub.json" = some (.readFile "sub.json" :: evs, r)) :=
  ⟨((Load_fetch_route docsEnv 0 "HtTpS://x" (by decide) (by decide)).2.1 (by decide)).2,
    ((Load_fetch_route docsEnv 0 "HTTP://x" (by decide) (by decide)).2.1 (by decide)).2,
    ((Load_fetch_route docsEnv 0 "http:/x" (by decide) (by decide)).2.2 (by decide)).2,
    ((Load_fetch_route docsEnv 0 "ftp://x" (by decide) (by decide)).2.2 (by decide)).2,
    ((Load_fetch_route docsEnv 0 "sub.json" (by decide) (by decide)).2.2 (by decide)).2⟩

/-! ## Documents without mountpoint -/

/-- Claim C12: for a depth of at most 10 and a reference that parses to a direct
entry (non-empty title, no href) whose children list is present and holds no
child with a non-empty href, `Load` returns the parsed entry itself, children
included, and the read of the reference is the only call made. -/
theorem Load_identity_without_mountpoint (env : Env) (d : Nat) (manifest : String)
    (entry : Entry) (cs : List Entry) (hd : d ≤ 10) (hp : parsed env manifest = some entry)
    (ht : entry.hasTitle) (hh : entry.HRef = none) (hcs : entry.Entries = some cs)
    (hplain : ∀ c ∈ cs, ¬ c.hasHRef) :
    Load env (some d) manifest = some ([(readData env manifest).1], .ret entry) :=
  Load_direct_plain env hd hp ht hh hcs hplain

/-- Claim C12 at a concrete input: a direct entry with a link, a leaf, an inline
subtree and a child whose href is the empty string. -/
theorem Load_identity_without_mountpoint_witness :
    Load plainEnv (some 0) "plain.json" =
      some ([Event.readFile "plain.json"],
        .ret (.mk (some "Docs") (some "docs.html")
          (some [leaf "Intro", node "Part" [leaf "One"], mount ""]) none)) :=
  Load_identity_without_mountpoint plainEnv 0 "plain.json" _
    [leaf "Intro", node "Part" [leaf "One"], mount ""] (by decide) rfl (by decide) rfl rfl
    (by decide)

/-- Claim C13: for a depth of at most 10 and a reference that parses to a node
with neither a non-empty title nor a non-empty href, `Load` returns the parsed
entry unchanged, whatever the nested calls would give, and the read of the
reference is the only call made. -/
theorem Load_degenerate_node (env : Env) (d : Nat) (manifest : String) (entry : Entry)
    (hd : d ≤ 10) (hp : parsed env manifest = some entry)
    (ht : ¬ entry.hasTitle) (hh : ¬ entry.hasHRef) :
    Load env (some d) manifest = some ([(readData env manifest).1], .ret entry) ∧
    ∀ L, LoadBody env L (some d) manifest = some ([(readData env manifest).1], .ret entry) := by
  obtain ⟨hm, data, hdata, hparse⟩ := parsed_eq_some hp
  refine ⟨?_, fun L => LoadBody_neither env L (checkCount_le hd) hm hdata hparse ht hh⟩
  rw [Load_unfold]
  exact LoadBody_neither env _ (checkCount_le hd) hm hdata hparse ht hh

/-- Claim C13 at a concrete input: a node with a link and a mountpoint child but
neither title nor href comes back as parsed, the mountpoint child unresolved. -/
theorem Load_degenerate_node_witness :
    Load plainEnv (some 0) "empty.json" =
      some ([Event.readFile "empty.json"],
        .ret (.mk none (some "x.html") (some [mount "sub.json"]) none)) :=
  (Load_degenerate_node plainEnv 0 "empty.json" _ (by decide) rfl (by decide) (by decide)).1

/-! ## Termination -/

/-- Twelve nested calls or more: the result is the one of `Load`. -/
theorem LoadFuel_ge (env : Env) :
    ∀ fuel, 12 ≤ fuel → LoadFuel env fuel = Load env := by
  intro fuel h
  induction fuel, h using Nat.le_induction with
  | base => rfl
  | succ n _ ih =>
    funext ctx manifest
    rw [LoadFuel_succ, ih, ← Load_unfold]

/-- Claim C14: over an arbitrary environment (one that answers every read and
every parse, cyclic or endlessly deep reference graphs included) `Load` is
total: every call ends with an entry, an error or a panic; no bound of twelve
nested calls or more changes the result; `Load` is its own body, whose
recursive calls are all made with the counter plus one; and a call whose
counter is above 10 returns at once without calling `Load` again. -/
theorem Load_terminates (env : Env) (ctx : Option Nat) (manifest : String) :
    (∃ evs r, Load env ctx manifest = some (evs, r)) ∧
    (∀ fuel, 12 ≤ fuel → LoadFuel env fuel ctx manifest = Load env ctx manifest) ∧
    Load env ctx manifest = LoadBody env (Load env) ctx manifest ∧
    (∀ L₁ L₂ : Option Nat → String → Run Entry,
      (∀ c, checkCount ctx = .ok c → L₁ (some (c + 1)) = L₂ (some (c + 1))) →
      LoadBody env L₁ ctx manifest = LoadBody env L₂ ctx manifest) ∧
    (∀ (d : Nat) (L : Option Nat → String → Run Entry), 10 < d →
      LoadBody env L (some d) manifest = some ([], .fail .recursionTooDeep)) := by
  refine ⟨?_, fun fuel h => by rw [LoadFuel_ge env fuel h], Load_unfold env ctx manifest,
    fun L₁ L₂ h => LoadBody_congr env L₁ L₂ ctx manifest h,
    fun d L hd => LoadBody_count_error env L manifest (checkCount_gt hd)⟩
  cases h : Load env ctx manifest with
  | none => exact absurd h (Load_ne_none env ctx manifest)
  | some run => exact ⟨run.1, run.2, rfl⟩

/-- Claim C14 at a concrete input: a mountpoint to itself.  The top-level call
ends, a bound of 40 nested calls gives the same result as `Load`, and at depth
11 the body returns without using the function it is given. -/
theorem Load_terminates_witness :
    (∃ evs r, Load chainEnv none "loop.json" = some (evs, r)) ∧
    LoadFuel chainEnv 40 none "loop.json" = Load chainEnv none "loop.json" ∧
    LoadBody chainEnv (fun _ _ => none) (some 11) "loop.json" =
      some ([], .fail .recursionTooDeep) :=
  ⟨(Load_terminates chainEnv none "loop.json").1,
    (Load_terminates chainEnv none "loop.json").2.1 40 (by decide),
    (Load_terminates chainEnv none "loop.json").2.2.2.2 11 (fun _ _ => none) (by decide)⟩

/-! ## What a direct entry keeps -/

/-- The loop never returns more entries than it was given. -/
theorem rangeEntries_length (load : String → Run Entry) :
    ∀ (cs entries : List Entry) (evs : List Event) (out : List Entry),
      rangeEntries load cs entries = some (evs, .ret out) →
      out.length ≤ entries.length + cs.length := by
  intro cs
  induction cs with
  | nil =>
    intro entries evs out h
    simp only [rangeEntries, Option.some.injEq, Prod.mk.injEq, Outcome.ret.injEq] at h
    rw [← h.2]; simp
  | cons child rest ih =>
    intro entries evs out h
    unfold rangeEntries at h
    by_cases hm : child.HRef ≠ none ∧ child.HRef ≠ some ""
    · rw [if_pos hm] at h
      cases hl : load (child.HRef.getD "") with
      | none => rw [hl] at h; cases h
      | some run =>
        obtain ⟨evs', r⟩ := run
        rw [hl] at h
        cases r with
        | panic => cases h
        | fail err =>
          obtain ⟨run', hrun, heq⟩ := Option.map_eq_some'.1 h
          obtain ⟨evs'', r''⟩ := run'
          simp only [Prod.mk.injEq] at heq
          rw [heq.2] at hrun
          have := ih entries evs'' out hrun
          simp only [List.length_cons]; omega
        | ret e =>
          obtain ⟨run', hrun, heq⟩ := Option.map_eq_some'.1 h
          obtain ⟨evs'', r''⟩ := run'
          simp only [Prod.mk.injEq] at heq
          rw [heq.2] at hrun
          have := ih (entries ++ [e]) evs'' out hrun
          simp only [List.length_append, List.length_singleton] at this
          simp only [List.length_cons]; omega
    · rw [if_neg hm] at h
      have := ih (entries ++ [child]) evs out h
      simp only [List.length_append, List.length_singleton] at this
      simp only [List.length_cons]; omega

/-- One call on a titled node that returns an entry: what it keeps. -/
theorem LoadBody_direct_frame (env : Env) (L : Option Nat → String → Run Entry)
    {ctx : Option Nat} {manifest : String} {entry : Entry} {evs : List Event} {e : Entry}
    (hp : parsed env manifest = some entry) (ht : entry.hasTitle)
    (h : LoadBody env L ctx manifest = some (evs, .ret e)) :
    e.Title = entry.Title ∧ e.Link = entry.Link ∧ e.HRef = none ∧ entry.HRef = none ∧
      ∃ cs out, entry.Entries = some cs ∧ e.Entries = some out ∧ out.length ≤ cs.length := by
  obtain ⟨hm, data, hdata, hparse⟩ := parsed_eq_some hp
  unfold LoadBody at h
  cases hc : checkCount ctx with
  | error err => simp [hc] at h
  | ok c =>
    simp only [hc, hm, hdata, hparse, if_false] at h
    rw [if_pos ht] at h
    by_cases hh : entry.HRef ≠ none
    · rw [if_pos hh] at h; simp at h
    rw [if_neg hh] at h
    have hh' : entry.HRef = none := by simpa using hh
    cases hcs : entry.Entries with
    | none => simp [hcs] at h
    | some cs =>
      simp only [hcs] at h
      cases hr : rangeEntries (L (some (c + 1))) cs [] with
      | none => simp [hr] at h
      | some run =>
        obtain ⟨evs', r⟩ := run
        cases r with
        | panic => simp [hr] at h
        | fail err => simp [hr] at h
        | ret out =>
          simp only [hr, Option.some.injEq, Prod.mk.injEq, Outcome.ret.injEq] at h
          obtain ⟨hT, hL, hE, hH⟩ := setEntries_fields entry out
          rw [← h.2]
          refine ⟨hT, hL, hH.trans hh', hh', cs, out, rfl, hE, ?_⟩
          have := rangeEntries_length _ cs [] evs' out hr
          simpa using this

/-- Claim C15: whenever `Load` succeeds on a reference that parses to a node
with a non-empty title, the parsed node had no href, and the returned entry has
the parsed title, the parsed link, no href, and a children list that is not
longer than the parsed one. -/
theorem Load_direct_frame (env : Env) (ctx : Option Nat) (manifest : String)
    (entry : Entry) (evs : List Event) (e : Entry)
    (hp : parsed env manifest = some entry) (ht : entry.hasTitle)
    (h : Load env ctx manifest = some (evs, .ret e)) :
    e.Title = entry.Title ∧ e.Link = entry.Link ∧ e.HRef = none ∧ entry.HRef = none ∧
      ∃ cs out, entry.Entries = some cs ∧ e.Entries = some out ∧ out.length ≤ cs.length := by
  rw [Load_unfold] at h
  exact LoadBody_direct_frame env _ hp ht h

/-- Claim C15 at a concrete input: three mountpoint children of which one is
dropped; title, link and href are the parsed ones and two children are left. -/
theorem Load_direct_frame_witness :
    (node "Docs" [node "A" [], node "C" []]).Title = some "Docs" ∧
    (node "Docs" [node "A" [], node "C" []]).Link = none ∧
    (node "Docs" [node "A" [], node "C" []]).HRef = none ∧
    (node "Docs" [mount "a.json", mount "b.json", mount "c.json"]).HRef = none ∧
    ∃ cs out, (node "Docs" [mount "a.json", mount "b.json", mount "c.json"]).Entries = some cs ∧
      (node "Docs" [node "A" [], node "C" []]).Entries = some out ∧ out.length ≤ cs.length :=
  Load_direct_frame threeEnv none "root.json"
    (node "Docs" [mount "a.json", mount "b.json", mount "c.json"])
    [.readFile "root.json", .readFile "a.json", .readFile "b.json", .readFile "c.json"]
    (node "Docs" [node "A" [], node "C" []]) rfl (by decide) rfl

/-- Claim C16: for every environment, counter and reference, whenever `Load`
succeeds the root of the returned entry carries no non-empty href and, when
that root has a non-empty title, it has a children list none of whose members
carries a non-empty href. -/
theorem Load_root_and_children_resolved (env : Env) (ctx : Option Nat) (manifest : String)
    (evs : List Event) (e : Entry) (h : Load env ctx manifest = some (evs, .ret e)) :
    ¬ e.hasHRef ∧ (e.hasTitle → ∃ cs, e.Entries = some cs ∧ ∀ c ∈ cs, ¬ c.hasHRef) :=
  Load_shallowResolved env ctx manifest evs e h

/-- Claim C16 at a concrete input: at depth 4, the root with three mountpoint
children comes back with two resolved children and no href anywhere in them. -/
theorem Load_root_and_children_resolved_witness :
    ¬ (node "Docs" [node "A" [], node "C" []]).hasHRef ∧
    ((node "Docs" [node "A" [], node "C" []]).hasTitle →
      ∃ cs, (node "Docs" [node "A" [], node "C" []]).Entries = some cs ∧
        ∀ c ∈ cs, ¬ c.hasHRef) :=
  Load_root_and_children_resolved threeEnv (some 4) "root.json"
    [.readFile "root.json", .readFile "a.json", .readFile "b.json", .readFile "c.json"]
    (node "Docs" [node "A" [], node "C" []]) rfl

/-! ## A cycle through a children list -/

/-- Down the cycle: at counter `j` the result is the chain of the `11 - j`
entries of the calls at counters `j` to 10. -/
theorem Load_cycle_step (env : Env) (hp : parsed env "A" = some (node "A" [mount "A"])) :
    ∀ n j, j + n = 10 →
      Load env (some j) "A" =
        some (List.replicate (n + 1) (readData env "A").1, .ret (nestA n)) := by
  intro n
  induction n with
  | zero =>
    intro j hj
    have h11 : Load env (some (j + 1)) "A" = some ([], .fail .recursionTooDeep) := by
      rw [Load_unfold]
      exact LoadBody_count_error env _ _ (checkCount_gt (by omega))
    rw [Load_direct_children env j "A" _ [mount "A"] (by omega) hp (by decide) rfl rfl
      (by
        intro child hc _ evs
        rw [List.mem_singleton.1 hc]
        simp [mount, Entry.HRef, h11])]
    simp [childEvents, resolveChildren, mount, Entry.HRef, h11, nestA, node, Entry.setEntries]
  | succ n ih =>
    intro j hj
    have hnext := ih (j + 1) (by omega)
    rw [Load_direct_children env j "A" _ [mount "A"] (by omega) hp (by decide) rfl rfl
      (by
        intro child hc _ evs
        rw [List.mem_singleton.1 hc]
        simp [mount, Entry.HRef, hnext])]
    simp [childEvents, resolveChildren, mount, Entry.HRef, hnext, nestA, node, Entry.setEntries,
      List.replicate_succ]

/-- Claim C17: in every environment where the reference "A" parses to the
document with title "A" and the single child `href "A"`, the top-level `Load`
of "A" succeeds after reading "A" eleven times and returns the chain of eleven
nested entries titled "A" (one for each counter 0 to 10), the innermost with an
empty children list: the "recursion too deep" error of the twelfth call only
drops a child. -/
theorem Load_cycle_through_children (env : Env)
    (hp : parsed env "A" = some (node "A" [mount "A"])) :
    Load env none "A" = some (List.replicate 11 (readData env "A").1, .ret (nestA 10)) ∧
    Load env (some 11) "A" = some ([], .fail .recursionTooDeep) := by
  constructor
  · rw [Load_none]
    exact Load_cycle_step env hp 10 0 rfl
  · rw [Load_unfold]
    exact LoadBody_count_error env _ _ (checkCount_gt (by decide))

/-- Claim C17 at a concrete input: the file "A", with the returned tree written out. -/
theorem Load_cycle_through_children_witness :
    Load cycleEnv none "A" =
      some (List.replicate 11 (Event.readFile "A"),
        .ret (node "A" [node "A" [node "A" [node "A" [node "A" [node "A" [node "A"
          [node "A" [node "A" [node "A" [node "A" []]]]]]]]]]])) ∧
    Load cycleEnv (some 11) "A" = some ([], .fail .recursionTooDeep) :=
  Load_cycle_through_children cycleEnv rfl

/-! ## Inline fields of a mountpoint child -/

theorem rangeEntries_sameChild (load : String → Run Entry) {cs₁ cs₂ : List Entry}
    (h : List.Forall₂ sameChild cs₁ cs₂) :
    ∀ entries, rangeEntries load cs₁ entries = rangeEntries load cs₂ entries := by
  induction h with
  | nil => intro entries; rfl
  | @cons a b l₁ l₂ hab _ ih =>
    intro entries
    rcases hab with ⟨ha, hb⟩ | ⟨ha, hb⟩
    · have hb' : b.HRef ≠ none ∧ b.HRef ≠ some "" := by rw [hb]; exact ha
      rw [rangeEntries, rangeEntries, if_pos ha, if_pos hb', hb]
      simp only [ih]
    · subst hb
      rw [rangeEntries, rangeEntries, if_neg ha, if_neg ha, ih]

theorem rangeEntries_ne_fail (load : String → Run Entry) :
    ∀ (cs entries : List Entry) (evs : List Event) (err : Error),
      rangeEntries load cs entries ≠ some (evs, .fail err) := by
  intro cs
  induction cs with
  | nil => intro entries evs err h; simp [rangeEntries] at h
  | cons child rest ih =>
    intro entries evs err h
    unfold rangeEntries at h
    by_cases hm : child.HRef ≠ none ∧ child.HRef ≠ some ""
    · rw [if_pos hm] at h
      cases hl : load (child.HRef.getD "") with
      | none => rw [hl] at h; cases h
      | some run =>
        obtain ⟨evs', r⟩ := run
        rw [hl] at h
        cases r with
        | panic => simp at h
        | fail e =>
          obtain ⟨run', hrun, heq⟩ := Option.map_eq_some'.1 h
          obtain ⟨evs'', r''⟩ := run'
          simp only [Prod.mk.injEq] at heq
          rw [heq.2] at hrun
          exact ih entries evs'' err hrun
        | ret e =>
          obtain ⟨run', hrun, heq⟩ := Option.map_eq_some'.1 h
          obtain ⟨evs'', r''⟩ := run'
          simp only [Prod.mk.injEq] at heq
          rw [heq.2] at hrun
          exact ih _ evs'' err hrun
    · rw [if_neg hm] at h
      exact ih _ evs err h

theorem setEntries_congr {e₁ e₂ : Entry} (hT : e₂.Title = e₁.Title) (hL : e₂.Link = e₁.Link)
    (hH : e₂.HRef = e₁.HRef) (out : List Entry) : e₂.setEntries out = e₁.setEntries out := by
  cases e₁; cases e₂
  simp only [Entry.Title, Entry.Link, Entry.HRef] at hT hL hH
  simp [Entry.setEntries, hT, hL, hH]

/-- The loop panics as soon as the nested call of one mountpoint child does. -/
theorem rangeEntries_panic (load : String → Run Entry) (hsome : ∀ r, load r ≠ none) :
    ∀ (cs entries : List Entry),
      (∃ child ∈ cs, child.hasHRef ∧ ∃ evs, load (child.HRef.getD "") = some (evs, .panic)) →
      ∃ evs, rangeEntries load cs entries = some (evs, .panic) := by
  intro cs
  induction cs with
  | nil => intro entries h; obtain ⟨c, hc, _⟩ := h; cases hc
  | cons child rest ih =>
    intro entries h
    obtain ⟨c, hc, hhas, evs, hp⟩ := h
    unfold rangeEntries
    by_cases hm : child.HRef ≠ none ∧ child.HRef ≠ some ""
    · rw [if_pos hm]
      cases hl : load (child.HRef.getD "") with
      | none => exact absurd hl (hsome _)
      | some run =>
        obtain ⟨evs', r⟩ := run
        cases r with
        | panic => exact ⟨evs', rfl⟩
        | fail err =>
          rcases List.mem_cons.1 hc with hc | hc
          · rw [hc, hl] at hp; cases hp
          · obtain ⟨evs'', hr⟩ := ih entries ⟨c, hc, hhas, evs, hp⟩
            exact ⟨evs' ++ evs'', by simp [hr]⟩
        | ret e =>
          rcases List.mem_cons.1 hc with hc | hc
          · rw [hc, hl] at hp; cases hp
          · obtain ⟨evs'', hr⟩ := ih (entries ++ [e]) ⟨c, hc, hhas, evs, hp⟩
            exact ⟨evs' ++ evs'', by simp [hr]⟩
    · rw [if_neg hm]
      rcases List.mem_cons.1 hc with hc | hc
      · rw [hc] at hhas; exact absurd hhas hm
      · exact ih (entries ++ [child]) ⟨c, hc, hhas, evs, hp⟩

/-- Claim C18: take, at a depth `d` of at most 10, a reference `m₁` that parses
to a direct entry with children list `cs₁`, and a reference `m₂` that parses to
a direct entry with the same title and link whose children list matches `cs₁`
child by child: either both children carry the same non-empty href, whatever
their inline title, link and children, or the child carries no usable href and
is the same in both.  Then (1) neither `Load` returns an error, validation
errors included; (2) after reading their own reference both make the same calls
and end in the same way; (3) when no nested call panics, both return the entry
whose children are the walk over `cs₁` in which a child with a non-empty href
stands for exactly what `Load(d+1, href)` returns (left out when that fails),
after exactly the calls of those nested runs; (4) when the nested call of some
child with a non-empty href panics, both panic. -/
theorem Load_inline_fields_ignored (env : Env) (d : Nat) (m₁ m₂ : String) (e₁ e₂ : Entry)
    (cs₁ cs₂ : List Entry) (hd : d ≤ 10)
    (hp₁ : parsed env m₁ = some e₁) (hp₂ : parsed env m₂ = some e₂)
    (ht : e₁.hasTitle) (hT : e₂.Title = e₁.Title) (hL : e₂.Link = e₁.Link)
    (hh₁ : e₁.HRef = none) (hh₂ : e₂.HRef = none)
    (hcs₁ : e₁.Entries = some cs₁) (hcs₂ : e₂.Entries = some cs₂)
    (hsame : List.Forall₂ sameChild cs₁ cs₂) :
    (∀ evs err, Load env (some d) m₁ ≠ some (evs, .fail err)) ∧
    (∀ evs err, Load env (some d) m₂ ≠ some (evs, .fail err)) ∧
    (∃ evs r, Load env (some d) m₁ = some ((readData env m₁).1 :: evs, r) ∧
      Load env (some d) m₂ = some ((readData env m₂).1 :: evs, r)) ∧
    ((∀ child ∈ cs₁, child.hasHRef →
        ∀ evs, Load env (some (d + 1)) (child.HRef.getD "") ≠ some (evs, .panic)) →
      Load env (some d) m₁ =
        some ((readData env m₁).1 :: childEvents (Load env (some (d + 1))) cs₁,
          .ret (e₁.setEntries (resolveChildren (Load env (some (d + 1))) cs₁))) ∧
      Load env (some d) m₂ =
        some ((readData env m₂).1 :: childEvents (Load env (some (d + 1))) cs₁,
          .ret (e₁.setEntries (resolveChildren (Load env (some (d + 1))) cs₁)))) ∧
    ((∃ child ∈ cs₁, child.hasHRef ∧
        ∃ evs, Load env (some (d + 1)) (child.HRef.getD "") = some (evs, .panic)) →
      (∃ evs, Load env (some d) m₁ = some (evs, .panic)) ∧
      ∃ evs, Load env (some d) m₂ = some (evs, .panic)) := by
  obtain ⟨hm₁, data₁, hdata₁, hparse₁⟩ := parsed_eq_some hp₁
  obtain ⟨hm₂, data₂, hdata₂, hparse₂⟩ := parsed_eq_some hp₂
  obtain ⟨t, ht₁, htne⟩ := (hasTitle_iff _).1 ht
  have ht₂ : e₂.Title = some t := hT.trans ht₁
  have hc := checkCount_le hd
  have hset : ∀ out, e₂.setEntries out = e₁.setEntries out :=
    setEntries_congr hT hL (hh₂.trans hh₁.symm)
  rw [Load_unfold env (some d) m₁, Load_unfold env (some d) m₂,
    LoadBody_direct env _ hc hm₁ hdata₁ hparse₁ ht₁ htne hh₁ hcs₁,
    LoadBody_direct env _ hc hm₂ hdata₂ hparse₂ ht₂ htne hh₂ hcs₂,
    ← rangeEntries_sameChild _ hsame []]
  have hfail := rangeEntries_ne_fail (Load env (some (d + 1))) cs₁ []
  have htotal := rangeEntries_ne_none _ (Load_ne_none env (some (d + 1))) cs₁ []
  refine ⟨?_, ?_, ?_, ?_, ?_⟩
  · intro evs err
    cases hr : rangeEntries (Load env (some (d + 1))) cs₁ [] with
    | none => exact absurd hr htotal
    | some run =>
      obtain ⟨evs', r⟩ := run
      cases r with
      | fail err' => exact absurd hr (hfail evs' err')
      | panic => simp
      | ret out => simp
  · intro evs err
    cases hr : rangeEntries (Load env (some (d + 1))) cs₁ [] with
    | none => exact absurd hr htotal
    | some run =>
      obtain ⟨evs', r⟩ := run
      cases r with
      | fail err' => exact absurd hr (hfail evs' err')
      | panic => simp
      | ret out => simp
  · cases hr : rangeEntries (Load env (some (d + 1))) cs₁ [] with
    | none => exact absurd hr htotal
    | some run =>
      obtain ⟨evs, r⟩ := run
      cases r with
      | fail err => exact absurd hr (hfail evs err)
      | panic => exact ⟨evs, .panic, rfl, rfl⟩
      | ret out => exact ⟨evs, .ret (e₁.setEntries out), rfl, by simp only [hset]⟩
  · intro hnp
    rw [rangeEntries_eq _ (Load_ne_none env _) cs₁ [] hnp]
    simp [hset]
  · intro hpanic
    obtain ⟨evs, hr⟩ := rangeEntries_panic _ (Load_ne_none env (some (d + 1))) cs₁ [] hpanic
    rw [hr]
    exact ⟨⟨_, rfl⟩, ⟨_, rfl⟩⟩

/-- Claim C18 at a concrete input: the child with inline title "X", link
"x.html" and child "Y" next to its href "sub.json", and the bare mountpoint to
"sub.json".  Both documents read `sub.json` at depth 1 and return the root
`Docs` with the single child `Sub`, the entry `Load` returns for `sub.json`. -/
theorem Load_inline_fields_ignored_witness :
    Load inlineEnv (some 1) "sub.json" = some ([.readFile "sub.json"], .ret (node "Sub" [])) ∧
    Load inlineEnv (some 0) "rich.json" =
      some ([.readFile "rich.json", .readFile "sub.json"], .ret (node "Docs" [node "Sub" []])) ∧
    Load inlineEnv (some 0) "bare.json" =
      some ([.readFile "bare.json", .readFile "sub.json"], .ret (node "Docs" [node "Sub" []])) :=
  ⟨rfl,
    (Load_inline_fields_ignored inlineEnv 0 "rich.json" "bare.json"
      (node "Docs" [.mk (some "X") (some "x.html") (some [leaf "Y"]) (some "sub.json")])
      (node "Docs" [mount "sub.json"]) _ _ (by decide) rfl rfl (by decide) rfl rfl rfl rfl rfl rfl
      (List.Forall₂.cons (Or.inl ⟨by decide, rfl⟩) List.Forall₂.nil)).2.2.2.1
      (by
        intro child hc _ evs
        rw [List.mem_singleton.1 hc]
        have h : Load inlineEnv (some 1) "sub.json" =
            some ([.readFile "sub.json"], .ret (node "Sub" [])) := rfl
        simp [Entry.HRef, h])⟩

/-- The two documents of the example above, evaluated. -/
theorem Load_inline_example :
    Load inlineEnv none "rich.json" =
        some ([.readFile "rich.json", .readFile "sub.json"], .ret (node "Docs" [node "Sub" []])) ∧
    Load inlineEnv none "bare.json" =
        some ([.readFile "bare.json", .readFile "sub.json"], .ret (node "Docs" [node "Sub" []])) :=
  ⟨rfl, rfl⟩

end Dochub
